import Mathlib

/-!
Verification development for the lunar-engine interactive command shell
(`src/lunar_engine/command.py` and `src/lunar_engine/shell.py`).

The embedding models:
  * the typed-argument coercion engine (`Shell._transform_types` and
    `Shell._transform_single_type`),
  * the argument binder and dispatcher (`Shell._execute`, `Shell.run`),
  * the command registry (`CommandRegistry.register` / `__delitem__`),
    using an arena (index-addressed heap) in place of Python object
    identity plus weak references, as the objects form a graph that is
    mutated through aliases.

Python machine details that no theorem depends on are simplified only
where noted by a comment next to the definition.
-/

namespace LunarEngine

/-- A value appearing in a `Literal[...]` annotation.  The source compares
literals by `str(...)` (enum members by `.name`); `Literal[None]` is
normalized away by Python's typing machinery, so there is no none literal. -/
inductive LitVal
  | i (n : Int)
  | s (v : String)
  | b (v : Bool)
  | enumMember (n : String)
deriving DecidableEq, Repr

/-- The closed set of type shapes the coercion engine dispatches on
(`Shell._transform_single_type`).  `union cands hasNone` models a PEP-604
`X | Y | ...` annotation: `cands` are the non-`None` members in declaration
order (the source filters `NoneType` out at shell.py:468) and `hasNone`
records whether `NoneType` was among the members.  `str` stands for the
fall-through branch (shell.py:641-642) that returns the raw token, which is
how plain `str` parameters (and any unrecognized annotation) behave. -/
inductive TypeShape
  | int
  | float
  | str
  | bool
  | bytes
  | enum (typeName : String) (members : List String)
  | lit (values : List LitVal)
  | list (elem : TypeShape)
  | union (cands : List TypeShape) (hasNone : Bool)
deriving Repr

/-- A transformed argument value (`TransformedArgs` in shell.py). -/
inductive Value
  | int (n : Int)
  | float (q : Rat)
  | str (s : String)
  | bool (b : Bool)
  | bytes (s : String)
  | enumMember (n : String)
  | list (vs : List Value)
  | none
deriving Repr

/-- Events routed through the `HandlerRegistry` (`Event` in shell.py),
with the payload the default handlers receive.  The exception object passed
to some handlers is not carried; no claim inspects it. -/
inductive Event
  | unknownCommand (name : String)
  | typeTransformError (arg : String) (argName : String) (typeName : Option String)
      (options : Option (List String))
  | argumentCountError (commandName : String) (missing : Option (List String))
      (provided : Nat) (expected : Nat) (total : Nat)
  | commandException
  | commandInterrupt
  | interrupt
  | unexpectedException
deriving DecidableEq, Repr

/-- Failure modes of the transform pipeline that the dispatcher
distinguishes: `invalidArgument` is `InvalidArgumentTypeException`
(silently swallowed at shell.py:755-756), the others are Python runtime
errors (`assert` at shell.py:458, `arg_names[i]` out of range) that reach
the defensive `except Exception` at shell.py:759 as unexpected exceptions. -/
inductive PyFail
  | invalidArgument
  | assertionError
  | indexError
deriving DecidableEq, Repr

/-- Python `sep.split` grouping on a single-character separator:
`"a,,b".split(",") = ["a", "", "b"]`, `"".split(",") = [""]`. -/
def splitOnCharAux (sep : Char) : List Char → List (List Char)
  | [] => [[]]
  | c :: rest =>
    match splitOnCharAux sep rest with
    | grp :: grps => if c == sep then [] :: grp :: grps else (c :: grp) :: grps
    | [] => [[]]

/-- Python `s.split(sep)` for a one-character separator. -/
def splitOnChar (sep : Char) (s : String) : List String :=
  (splitOnCharAux sep s.data).map (fun g => String.mk g)

/-- Python `s.strip()`: drop whitespace from both ends. -/
def pyTrim (s : String) : String :=
  String.mk (((s.data.dropWhile Char.isWhitespace).reverse.dropWhile Char.isWhitespace).reverse)

/-- Python `s.lower()` (ASCII; no claim involves non-ASCII case folding). -/
def pyLower (s : String) : String :=
  String.mk (s.data.map Char.toLower)

/-- Tokenizer behind `line.strip().split()` (shell.py:646): split on runs
of whitespace, dropping empty pieces (which also strips the ends). -/
def pySplitAux : List Char → List Char → List String
  | [], acc => if acc.isEmpty then [] else [String.mk acc.reverse]
  | c :: rest, acc =>
    if c.isWhitespace then
      if acc.isEmpty then pySplitAux rest []
      else String.mk acc.reverse :: pySplitAux rest []
    else pySplitAux rest (c :: acc)

/-- Base-10 digit string to number. -/
def digitsVal (cs : List Char) : Nat :=
  cs.foldl (fun a c => a * 10 + (c.toNat - 48)) 0

/-- Python `int(arg)`: optional sign then decimal digits.  The source
accepts a few more spellings (surrounding whitespace, underscores between
digits, non-ASCII digits); no claim exercises them. -/
def parseInt (s : String) : Option Int :=
  let core : List Char → Option Int := fun cs =>
    if cs ≠ [] ∧ cs.all Char.isDigit then some (digitsVal cs) else Option.none
  match s.data with
  | '-' :: rest => (core rest).map (fun n => -n)
  | '+' :: rest => core rest
  | _ => core s.data

/-- Python `float(arg)` on plain decimal notation
(`[+-]? digits [. digits]`, either side of the dot possibly empty but not
both).  The source also accepts exponents, `inf`/`nan` and underscores;
no claim exercises them.  The value is modelled as an exact rational. -/
def parseFloat (s : String) : Option Rat :=
  let body : String → Option Rat := fun t =>
    match splitOnChar '.' t with
    | [ip] =>
        if ip.length > 0 ∧ ip.data.all Char.isDigit then
          some (mkRat (digitsVal ip.data) 1)
        else Option.none
    | [ip, fp] =>
        if (ip.length > 0 ∨ fp.length > 0) ∧ ip.data.all Char.isDigit
            ∧ fp.data.all Char.isDigit then
          some (mkRat (digitsVal ip.data * 10 ^ fp.data.length + digitsVal fp.data)
            (10 ^ fp.data.length))
        else Option.none
    | _ => Option.none
  match s.data with
  | '-' :: rest => (body (String.mk rest)).map (fun q => -q)
  | '+' :: rest => body (String.mk rest)
  | _ => body s

/-- The literal value a matched `Literal` member is returned as. -/
def litToValue : LitVal → Value
  | .i n => .int n
  | .s v => .str v
  | .b v => .bool v
  | .enumMember n => .enumMember n

/-- `str(literal_value)` (enum members by `.name`), as used for the
valid-options list at shell.py:539-542. -/
def litDisplay : LitVal → String
  | .i n => toString n
  | .s v => v
  | .b v => if v then "True" else "False"
  | .enumMember n => n

/-- One round of the literal-matching loop at shell.py:525-536: enum
members match by name; otherwise the token is compared with `str(value)`,
and string literals additionally match case-insensitively. -/
def litMatch (v : LitVal) (arg : String) : Bool :=
  match v with
  | .enumMember n => n == arg
  | .s sv => sv == arg || pyLower sv == pyLower arg
  | .i n => toString n == arg
  | .b b => (if b then "True" else "False") == arg

/-- Element loop of the `list` branch (shell.py:631-637): strip each
element and transform it with `f`; the first failing element aborts the
list with that element's events.  The source passes the element transformer
with `suppress_error` left at its default `False` (shell.py:634), which the
caller `transformSingle` reproduces. -/
def transformElemsAcc (f : String → List Event × Option Value) :
    List String → List Event × Option (List Value)
  | [] => ([], some [])
  | e :: rest =>
    match f (pyTrim e) with
    | (evs, Option.none) => (evs, Option.none)
    | (evs, some v) =>
      match transformElemsAcc f rest with
      | (evs2, Option.none) => (evs ++ evs2, Option.none)
      | (evs2, some vs) => (evs ++ evs2, some (v :: vs))

/-- `Shell._transform_single_type` (shell.py:508-642).  Returns the events
fired on the type-coercion-error handler together with `some value` on
success or `none` when `InvalidArgumentTypeException` is raised.
A `union` shape reaching this function matches none of the branches
(`get_origin` is `UnionType`, which is neither `Literal` nor `list`, and a
`UnionType` is not a `type`), so it falls through to the raw-string return;
union dispatch happens only in `transformTypesAux` below, mirroring the
source.  `bytes(arg, "utf-8")` cannot raise `ValueError`, so the `bytes`
branch always succeeds. -/
def transformSingle : TypeShape → String → String → Bool → List Event × Option Value
  | .lit values, arg, argName, suppress =>
    (match values.find? (fun v => litMatch v arg) with
     | some v => ([], some (litToValue v))
     | Option.none =>
       (if suppress then [] else
         [.typeTransformError arg argName Option.none (some (values.map litDisplay))],
        Option.none))
  | .enum tyName members, arg, argName, suppress =>
    if members.contains arg then ([], some (.enumMember arg))
    else
      ((if suppress then [] else
         [.typeTransformError arg argName (some tyName) (some members)]),
       Option.none)
  | .int, arg, argName, suppress =>
    (match parseInt arg with
     | some n => ([], some (.int n))
     | Option.none =>
       ((if suppress then [] else
          [.typeTransformError arg argName (some "int") Option.none]), Option.none))
  | .float, arg, argName, suppress =>
    (match parseFloat arg with
     | some q => ([], some (.float q))
     | Option.none =>
       ((if suppress then [] else
          [.typeTransformError arg argName (some "float") Option.none]), Option.none))
  | .bytes, arg, _, _ => ([], some (.bytes arg))
  | .bool, arg, argName, suppress =>
    if pyLower arg == "true" || pyLower arg == "false" then
      ([], some (.bool (pyLower arg == "true")))
    else
      ((if suppress then [] else
         [.typeTransformError arg argName (some "bool") (some ["true", "false"])]),
       Option.none)
  | .list elemTy, arg, argName, _ =>
    let elements := if arg == "" then [] else splitOnChar ',' arg
    (match elements with
     | [] => ([], some (.list []))
     | _ :: _ =>
       match transformElemsAcc (fun e => transformSingle elemTy e argName false) elements with
       | (evs, some vs) => (evs, some (.list vs))
       | (evs, Option.none) => (evs, Option.none))
  | .union _ _, arg, _, _ => ([], some (.str arg))
  | .str, arg, _, _ => ([], some (.str arg))

/-- `t.__name__` for a union candidate, as joined into the combined failure
message at shell.py:490.  `list[int].__name__` is `"list"`; a `Literal` or
nested union cannot occur as a candidate of a runtime `X | Y` union (Python
flattens unions and normalizes `Literal` members), so those two values are
placeholders for unreachable shapes. -/
def TypeShape.pyName : TypeShape → String
  | .int => "int"
  | .float => "float"
  | .str => "str"
  | .bool => "bool"
  | .bytes => "bytes"
  | .enum n _ => n
  | .lit _ => "Literal"
  | .list _ => "list"
  | .union _ _ => "UnionType"

/-- `" | ".join(t.__name__ for t in non_none_types)` (shell.py:490). -/
def joinTypeNames (cands : List TypeShape) : String :=
  String.intercalate " | " (cands.map TypeShape.pyName)

/-- The bruteforce loop over union candidates (shell.py:477-486): try each
candidate with `suppress_error=True`, stop at the first success.  Events
fired despite the suppression (by the list-element recursion, which does
not forward the flag) are accumulated in order. -/
def unionLoop : List TypeShape → String → String → List Event × Option Value
  | [], _, _ => ([], Option.none)
  | t :: rest, arg, argName =>
    match transformSingle t arg argName true with
    | (evs, some v) => (evs, some v)
    | (evs, Option.none) =>
      match unionLoop rest arg argName with
      | (evs2, r) => (evs ++ evs2, r)

/-- `itertools.zip_longest(types, args, fillvalue=None)` (shell.py:447). -/
def zipLongest : List TypeShape → List String → List (Option TypeShape × Option String)
  | [], rest => rest.map (fun a => (Option.none, some a))
  | t :: ts, [] => (some t, Option.none) :: zipLongest ts []
  | t :: ts, a :: rest => (some t, some a) :: zipLongest ts rest

/-- Whether the annotation is a runtime union (`get_origin` is `UnionType`)
with `NoneType` among its members — the only shape for which the literal
token `"none"` becomes the absence marker (shell.py:449-455). -/
def isNoneUnion : Option TypeShape → Bool
  | some (.union _ true) => true
  | _ => false

/-- The simple single-type call of `Shell._transform_types`
(shell.py:500-504): transform with `suppress_error` at its default, lift
success into the result, raise `InvalidArgumentTypeException` on failure. -/
def coerceSingleWrap (ty : TypeShape) (arg argName : String) :
    List Event × Except PyFail Value :=
  match transformSingle ty arg argName false with
  | (evs, some v) => (evs, .ok v)
  | (evs, Option.none) => (evs, .error .invalidArgument)

/-- Coercion of one token once the `"none"`/missing handling is done:
the union branch of `Shell._transform_types` (shell.py:463-498) or the
single-type call (shell.py:501-503).  In the source the combined-failure
test is `transformed_value is None and last_exception`; a successful
candidate never produces Python `None` (see `transformSingle`), and when no
candidate succeeded every candidate raised, so the test is equivalent to
the union loop returning no value.  An annotation of `None` (zip fill on a
missing type) falls through every branch of `_transform_single_type` and
returns the raw token. -/
def coerceOne (ty? : Option TypeShape) (arg : String) (argName : String) :
    List Event × Except PyFail Value :=
  match ty? with
  | some (.union cands _) =>
    if cands.isEmpty then ([], .error .assertionError)
    else
      (match unionLoop cands arg argName with
       | (evs, some v) => (evs, .ok v)
       | (evs, Option.none) =>
         (evs ++ [.typeTransformError arg argName (some (joinTypeNames cands)) Option.none],
          .error .invalidArgument))
  | some ty => coerceSingleWrap ty arg argName
  | Option.none => ([], .ok (.str arg))

/-- The loop body sequence of `Shell._transform_types` (shell.py:447-506),
running over the zipped (type, token) pairs with the running index used for
`arg_names[i]`.  A `"none"` token (or a fill-in `None` token) paired with a
none-admitting union yields the absence marker and continues; any other
fill-in `None` token trips the `assert arg is not None` (shell.py:458);
an out-of-range `arg_names[i]` raises `IndexError`.  The first failure
aborts the loop, keeping the events fired so far. -/
def transformTypesAux (argNames : List String) :
    Nat → List (Option TypeShape × Option String) → List Event × Except PyFail (List Value)
  | _, [] => ([], .ok [])
  | i, (ty?, arg?) :: rest =>
    if (arg? == some "none" || arg?.isNone) && isNoneUnion ty? then
      (match transformTypesAux argNames (i + 1) rest with
       | (evs, .ok vs) => (evs, .ok (Value.none :: vs))
       | (evs, .error e) => (evs, .error e))
    else
      match arg? with
      | Option.none => ([], .error .assertionError)
      | some arg =>
        match argNames[i]? with
        | Option.none => ([], .error .indexError)
        | some nm =>
          match coerceOne ty? arg nm with
          | (evs, .error e) => (evs, .error e)
          | (evs, .ok v) =>
            match transformTypesAux argNames (i + 1) rest with
            | (evs2, .ok vs) => (evs ++ evs2, .ok (v :: vs))
            | (evs2, .error e) => (evs ++ evs2, .error e)

/-- `Shell._transform_types` (shell.py:441-506). -/
def transformTypes (types : List TypeShape) (args : List String) (argNames : List String) :
    List Event × Except PyFail (List Value) :=
  transformTypesAux argNames 0 (zipLongest types args)

/-- `inspect.Parameter.kind` restricted to the kinds the engine's coercion
path supports.  Keyword-only and `**kwargs` parameters are out of the
engine's scope (shell.py handles neither; command.py:27-29 skips them). -/
inductive PKind
  | posOrKw
  | varPositional
deriving DecidableEq, Repr

/-- One formal parameter of a command handler as reflected at dispatch
time: its name, resolved annotation, whether `inspect.Parameter.default`
is set, and its kind.  A `*args` parameter always has `hasDefault = false`
(Python forbids a default on it). -/
structure Param where
  name : String
  ty : TypeShape
  hasDefault : Bool
  kind : PKind
deriving Repr

/-- Placeholder parameter for out-of-range `getD` access in statements;
never produced by the model. -/
def dfltParam : Param := ⟨"", TypeShape.str, false, PKind.posOrKw⟩

/-- `CommandInfo` (command.py:11-19), with the weak parent back-reference
and the child objects replaced by arena indices (see `CommandRegistry`).
`func` itself is kept outside the registry: its reflected signature is the
`params` field and its runtime behavior is the `behavior` table passed to
`execute`, keyed by arena index. -/
structure CommandInfo where
  name : String
  description : Option String
  params : List Param
  parent : Option Nat
  children : List (String × Nat)
deriving Repr

/-- `CommandRegistry` (command.py:49-133).  `arena` is the heap of every
`CommandInfo` object ever created (an object's identity is its index), and
`commands` is the flat `_commands` dict modelled as an insertion-ordered
association list with unique keys. -/
structure CommandRegistry where
  arena : List CommandInfo
  commands : List (String × Nat)
deriving Repr

/-- Python `dict.get`. -/
def dictGet {α : Type} (d : List (String × α)) (k : String) : Option α :=
  (d.find? (fun p => p.1 == k)).map (fun p => p.2)

/-- Python `d[k] = v`: overwrite in place if the key exists, else append. -/
def dictSet {α : Type} (d : List (String × α)) (k : String) (v : α) : List (String × α) :=
  if (d.find? (fun p => p.1 == k)).isSome then
    d.map (fun p => if p.1 == k then (k, v) else p)
  else d ++ [(k, v)]

/-- Python `d.pop(k, None)` / `del d[k]` with the key present: remove the
entry, keeping the order of the rest.  `__delitem__`'s final
`del self._commands[name]` would raise `KeyError` if a nested deletion
already removed the key; that path is not reached in any state considered
here and is modelled as a silent removal. -/
def dictDel {α : Type} (d : List (String × α)) (k : String) : List (String × α) :=
  d.filter (fun p => p.1 ≠ k)

/-- The placeholder returned for an out-of-arena index; registries built
with `register` never produce one. -/
def dfltInfo : CommandInfo := ⟨"", Option.none, [], Option.none, []⟩

/-- Fetch the object at an arena index. -/
def arenaGet (reg : CommandRegistry) (id : Nat) : CommandInfo :=
  reg.arena.getD id dfltInfo

/-- Registration failures (`ValueError` messages at command.py:98/102/105). -/
inductive RegError
  | duplicateCommand
  | parentNotFound
  | duplicateSubcommand
deriving DecidableEq, Repr

def emptyReg : CommandRegistry := ⟨[], []⟩

/-- `CommandRegistry.register` (command.py:83-133).  Name inference from
`func.__name__` and description inference from the docstring happen before
any step modelled here, so `name` and `description` arrive resolved.
Quirks reproduced from the source: the parent-existence and
child-uniqueness checks run for any non-`None` parent string, but the
actual linking at command.py:120 is guarded by the truthiness test
`if parent:`, so the empty string as a parent name validates yet leaves the
new entry parentless; and the flat-lookup guard at command.py:131 tests
`cmd_info.parent is None` — the NEW entry's parent — so a non-root entry
never overwrites an existing flat key, while a root entry (whose name was
just checked absent) always inserts. -/
def CommandRegistry.register (reg : CommandRegistry) (params : List Param)
    (name : String) (description : Option String) (parent : Option String) :
    Except RegError CommandRegistry :=
  match parent with
  | Option.none =>
    if (dictGet reg.commands name).isSome then .error .duplicateCommand
    else
      let newId := reg.arena.length
      let info : CommandInfo := ⟨name, description, params, Option.none, []⟩
      .ok ⟨reg.arena ++ [info], dictSet reg.commands name newId⟩
  | some pname =>
    match dictGet reg.commands pname with
    | Option.none => .error .parentNotFound
    | some pid =>
      if (dictGet (arenaGet reg pid).children name).isSome then .error .duplicateSubcommand
      else
        let newId := reg.arena.length
        if pname == "" then
          let info : CommandInfo := ⟨name, description, params, Option.none, []⟩
          .ok ⟨reg.arena ++ [info], dictSet reg.commands name newId⟩
        else
          let info : CommandInfo := ⟨name, description, params, some pid, []⟩
          let parentInfo := arenaGet reg pid
          let arena1 := (reg.arena ++ [info]).set pid
            {parentInfo with children := dictSet parentInfo.children name newId}
          let commands1 :=
            if (dictGet reg.commands name).isSome then reg.commands
            else dictSet reg.commands name newId
          .ok ⟨arena1, commands1⟩

/-- `CommandRegistry.__delitem__` (command.py:61-77), with a fuel bound on
the recursion depth: `none` means the fuel ran out, which models the
Python recursion not terminating (every Python-terminating run is produced
by every sufficiently large fuel).  The weak parent reference is modelled
as always alive: popping a child name from an already-dead parent is
unobservable, since a dead object is unreachable from the registry.
The recursion deletes children by NAME through the flat lookup, exactly as
the source does — when a child's flat key is shadowed by another branch,
the shadowing entry is the one that gets deleted. -/
def delitemFuel : Nat → CommandRegistry → String → Option CommandRegistry
  | 0, _, _ => Option.none
  | fuel + 1, reg, name =>
    match dictGet reg.commands name with
    | Option.none => some reg
    | some id =>
      let cmd := arenaGet reg id
      let reg1 : CommandRegistry :=
        match cmd.parent with
        | some pid =>
          let p := arenaGet reg pid
          ⟨reg.arena.set pid {p with children := dictDel p.children name}, reg.commands⟩
        | Option.none => reg
      let afterChildren :=
        (cmd.children.map Prod.fst).foldl
          (fun acc childName =>
            match acc with
            | Option.none => Option.none
            | some r => delitemFuel fuel r childName)
          (some reg1)
      match afterChildren with
      | Option.none => Option.none
      | some r2 => some ⟨r2.arena, dictDel r2.commands name⟩

/-- The outcome of calling the resolved handler (`cmd_info.func(...)` at
shell.py:748): it returns, raises `KeyboardInterrupt`, raises the library's
`InterruptException` (a subclass of `Exception` via `LunarEngineException`,
exceptions.py:17), or raises any other `Exception`. -/
inductive FuncResult
  | ret
  | kbInterrupt
  | interruptExc
  | exc
deriving DecidableEq, Repr

/-- The greedy subcommand walk (shell.py:655-661): consume tokens while
each names a child of the current entry; the first non-child token starts
the argument list. -/
def walk (reg : CommandRegistry) : Nat → List String → Nat × List String
  | id, [] => (id, [])
  | id, p :: ps =>
    match dictGet (arenaGet reg id).children p with
    | some cid => walk reg cid ps
    | Option.none => (id, p :: ps)

/-- `required_params` (shell.py:680-686): parameters with no default,
excluding `*args`. -/
def requiredParams (ps : List Param) : List Param :=
  ps.filter (fun p => !p.hasDefault && !(p.kind == PKind.varPositional))

/-- The `effective_args` loop (shell.py:688-695): walk the tokens with
their index; a token equal to `"none"` whose position falls on a parameter
with a default stops the loop, discarding that token and every later one. -/
def effectiveArgsAux (ps : List Param) : Nat → List String → List String
  | _, [] => []
  | i, a :: rest =>
    match ps[i]? with
    | some p =>
      if a == "none" && p.hasDefault then []
      else a :: effectiveArgsAux ps (i + 1) rest
    | Option.none => a :: effectiveArgsAux ps (i + 1) rest

def effectiveArgs (ps : List Param) (args : List String) : List String :=
  effectiveArgsAux ps 0 args

/-- Outcome of arity validation plus type transformation (shell.py:680-745),
before the handler call.  `countError` is the `ARGUMENT_COUNT_ERROR`
notification followed by `return`; `transformFailed` is an
`InvalidArgumentTypeException` escaping `_transform_types`, swallowed at
shell.py:755-756 after the listed events fired; `pyError` is a Python
runtime error (assert/index) that reaches the catch-all handler. -/
inductive BindResult
  | countError (ev : Event)
  | transformFailed (evs : List Event)
  | pyError (evs : List Event)
  | ok (evs : List Event) (vals : List Value)
deriving Repr

/-- Arity validation (shell.py:699-715): produce the argument-count event
when there are fewer effective tokens than required parameters, or more
than the declared parameters with no variadic to absorb them.  On the
missing side the event names the uncovered suffix of the required
parameter names. -/
def bindCount (c : CommandInfo) (eff : List String) : Option Event :=
  let ps := c.params
  let numRequired := (requiredParams ps).length
  let hasVar := ps.any (fun p => p.kind == PKind.varPositional)
  if eff.length < numRequired ∨ (hasVar = false ∧ ps.length < eff.length) then
    let missing :=
      if eff.length < numRequired then
        some (((requiredParams ps).map Param.name).drop eff.length)
      else Option.none
    some (.argumentCountError c.name missing eff.length numRequired ps.length)
  else Option.none

/-- `types_to_transform` (shell.py:718-728): the per-token annotation list.
Without a variadic parameter it is the prefix of the declared annotations
covering the effective tokens; with one, the fixed annotations are followed
by one copy of the `*args` annotation per surplus token (`num_non_var` is
`len(param_type_list) - 1`, and Python's `[x] * n` with negative `n` is
empty, matching truncated subtraction). -/
def typesToTransform (ps : List Param) (effLen : Nat) : List TypeShape :=
  let paramTypes := ps.map Param.ty
  if ps.any (fun p => p.kind == PKind.varPositional) then
    paramTypes.dropLast ++
      List.replicate (effLen - (paramTypes.length - 1)) (paramTypes.getLastD TypeShape.str)
  else paramTypes.take effLen

/-- `names_to_transform` (shell.py:719-732), analogous to
`typesToTransform`; the parameter-name and annotation lists have the same
length, so `len(param_type_list) - 1` equals the subtraction used here. -/
def namesToTransform (ps : List Param) (effLen : Nat) : List String :=
  let paramNames := ps.map Param.name
  if ps.any (fun p => p.kind == PKind.varPositional) then
    paramNames.dropLast ++
      List.replicate (effLen - (paramNames.length - 1)) (paramNames.getLastD "")
  else paramNames.take effLen

/-- The type-transformation stage (shell.py:717-745), run after arity
validation passed.  `param_types`/`param_names` come from `get_type_hints`
minus `return`, which lists every annotated parameter in declaration order
— the same order as `signature.parameters` — so both derive from
`c.params`.  The branch for no effective tokens with required parameters
left calls the argument-count handler with 3 of its 5 positional arguments
(shell.py:741-743) — a `TypeError` that lands in the catch-all handler —
but it is unreachable, because that situation already failed the count
validation. -/
def bindTransform (c : CommandInfo) (eff : List String) : BindResult :=
  match eff with
  | [] =>
    if 0 < (requiredParams c.params).length then .pyError []
    else .ok [] []
  | _ :: _ =>
    match transformTypes (typesToTransform c.params eff.length) eff
        (namesToTransform c.params eff.length) with
    | (evs, .ok vals) => .ok evs vals
    | (evs, .error PyFail.invalidArgument) => .transformFailed evs
    | (evs, .error _) => .pyError evs

/-- Argument binding for a resolved command (shell.py:665-745): compute the
effective tokens, validate arity, then transform. -/
def bindArgs (c : CommandInfo) (args : List String) : BindResult :=
  let eff := effectiveArgs c.params args
  match bindCount c eff with
  | some ev => .countError ev
  | Option.none => bindTransform c eff

/-- What one dispatched line produced: the events fired on the handler
registry, in order, and the handler invocation (arena index of the resolved
command and the transformed argument list) when one happened. -/
structure ExecResult where
  events : List Event
  call : Option (Nat × List Value)
deriving Repr

/-- `Shell._execute` (shell.py:644-760) on an already-split token list.
An empty token list returns silently.  A first token that is absent from
the flat lookup — or resolves to an entry registered with a parent — fires
`unknown-command` (a `CommandInfo` is always truthy, so `not cmd_info`
means the `dict.get` returned `None`).  After binding, the handler call's
raised `KeyboardInterrupt` fires `command-interrupted`; any `Exception`
(including the library's own `InterruptException`, which subclasses
`Exception` and is therefore caught by the inner `except Exception` at
shell.py:752 before the outer re-raise at shell.py:757-758 could see it)
fires `command-exception`. -/
def execute (reg : CommandRegistry) (behavior : Nat → List Value → FuncResult)
    (parts : List String) : ExecResult :=
  match parts with
  | [] => ⟨[], Option.none⟩
  | tok :: rest =>
    match dictGet reg.commands tok with
    | Option.none => ⟨[.unknownCommand tok], Option.none⟩
    | some rootId =>
      if (arenaGet reg rootId).parent.isSome then ⟨[.unknownCommand tok], Option.none⟩
      else
        let res := walk reg rootId rest
        let c := arenaGet reg res.1
        match bindArgs c res.2 with
        | .countError ev => ⟨[ev], Option.none⟩
        | .transformFailed evs => ⟨evs, Option.none⟩
        | .pyError evs => ⟨evs ++ [.unexpectedException], Option.none⟩
        | .ok evs vals =>
          match behavior res.1 vals with
          | .ret => ⟨evs, some (res.1, vals)⟩
          | .kbInterrupt => ⟨evs ++ [.commandInterrupt], some (res.1, vals)⟩
          | .interruptExc => ⟨evs ++ [.commandException], some (res.1, vals)⟩
          | .exc => ⟨evs ++ [.commandException], some (res.1, vals)⟩

/-- `line.strip().split()` (shell.py:646). -/
def pySplit (s : String) : List String :=
  pySplitAux s.data []

/-- One item produced by the input source: a line of text, or the
source-level interruption (`InterruptException` raised by the prompt's
iterator on Ctrl-C/EOF, prompt.py:603-604). -/
inductive InputItem
  | line (s : String)
  | interrupted
deriving DecidableEq, Repr

/-- The interactive loop of `Shell.run` (shell.py:801-808): execute each
line in turn; when the input source raises its interruption the
`INTERRUPT` handler fires and the loop terminates, reading nothing
further.  Alternate-screen-buffer handling and CLI argument processing are
cosmetic/boundary concerns outside this model. -/
def run (reg : CommandRegistry) (behavior : Nat → List Value → FuncResult) :
    List InputItem → List Event
  | [] => []
  | .line s :: rest => (execute reg behavior (pySplit s)).events ++ run reg behavior rest
  | .interrupted :: _ => [.interrupt]

/-- Chain a registration onto a possibly-failed registry build. -/
def regStep (r : Except RegError CommandRegistry) (params : List Param)
    (name : String) (parent : Option String) : Except RegError CommandRegistry :=
  match r with
  | .ok reg => reg.register params name Option.none parent
  | .error e => .error e

/-- Extract the registry from a build known to succeed. -/
def regGet (r : Except RegError CommandRegistry) : CommandRegistry :=
  match r with
  | .ok reg => reg
  | .error _ => emptyReg

/-- Well-formedness of a reflected Python signature, as Python syntax
guarantees it: a `*args` parameter is last and has no default, and no
positional parameter without a default follows one with a default.  Stated
as an executable check. -/
def wfParams : List Param → Bool
  | [] => true
  | p :: rest =>
    (!(p.kind == PKind.varPositional) || (rest.isEmpty && !p.hasDefault))
    && (!p.hasDefault || rest.all (fun q => q.kind == PKind.varPositional || q.hasDefault))
    && wfParams rest

/-- A behavior table for handlers that simply return. -/
def behRet : Nat → List Value → FuncResult := fun _ _ => FuncResult.ret

/-- A behavior table for handlers that raise `KeyboardInterrupt`. -/
def behKb : Nat → List Value → FuncResult := fun _ _ => FuncResult.kbInterrupt

/-- Registry for the cross-branch shadowing scenario: root `a` (index 0),
subcommand `x` under `a` (index 1, owning the flat key `x`), root `b`
(index 2), subcommand `x` under `b` (index 3, flat key already taken). -/
def shadowReg : CommandRegistry :=
  regGet (regStep (regStep (regStep (emptyReg.register [] "a" Option.none Option.none)
    [] "x" (some "a")) [] "b" Option.none) [] "x" (some "b"))

/-- Registry whose flat lookup is cyclically shadowed: root `n` (0) with a
subcommand named `m` (2), root `m` (1) with a subcommand named `n` (3).
The flat keys `n` and `m` stay owned by the two roots. -/
def cycleReg : CommandRegistry :=
  regGet (regStep (regStep (regStep (emptyReg.register [] "n" Option.none Option.none)
    [] "m" Option.none) [] "m" (some "n")) [] "n" (some "m"))

/-- The spec scenario command `add(*nums: int | float)`. -/
def addReg : CommandRegistry :=
  regGet (emptyReg.register
    [⟨"nums", .union [.int, .float] false, false, .varPositional⟩]
    "add" Option.none Option.none)

/-- A command `f(a: int, b: int = 1, c: int = 2)`, used to probe the
`"none"`-skip behavior. -/
def skipCmd : CommandInfo :=
  ⟨"f", Option.none,
   [⟨"a", .int, false, .posOrKw⟩, ⟨"b", .int, true, .posOrKw⟩, ⟨"c", .int, true, .posOrKw⟩],
   Option.none, []⟩

/-- Registry with a single command `f(a: int, b: int)`. -/
def twoIntReg : CommandRegistry :=
  regGet (emptyReg.register
    [⟨"a", .int, false, .posOrKw⟩, ⟨"b", .int, false, .posOrKw⟩]
    "f" Option.none Option.none)

/-- Registry with a single parameterless command `f`. -/
def simpleReg : CommandRegistry :=
  regGet (emptyReg.register [] "f" Option.none Option.none)

/-- Registry with root `p` (index 0) and subcommand `c` under it
(index 1), whose flat key `c` was free and therefore occupied. -/
def parentChildReg : CommandRegistry :=
  regGet (regStep (emptyReg.register [] "p" Option.none Option.none) [] "c" (some "p"))

/-- Parameter predicate used by `requiredParams`. -/
def isRequired (p : Param) : Bool :=
  !p.hasDefault && !(p.kind == PKind.varPositional)

theorem requiredParams_eq_filter (ps : List Param) :
    requiredParams ps = ps.filter isRequired := rfl

theorem requiredParams_nil_of_all_default {ps : List Param}
    (h : ps.all (fun q => q.kind == PKind.varPositional || q.hasDefault) = true) :
    requiredParams ps = [] := by
  rw [requiredParams_eq_filter]
  rw [List.filter_eq_nil_iff]
  intro a ha
  have hq := List.all_eq_true.mp h a ha
  cases hk : a.kind == PKind.varPositional with
  | true => simp [isRequired, hk]
  | false =>
    rw [hk] at hq
    simp only [Bool.false_or] at hq
    simp [isRequired, hq]

theorem wfParams_cons {p : Param} {rest : List Param} (h : wfParams (p :: rest) = true) :
    ((p.kind == PKind.varPositional) = true → rest.isEmpty = true ∧ p.hasDefault = false)
    ∧ (p.hasDefault = true →
        rest.all (fun q => q.kind == PKind.varPositional || q.hasDefault) = true)
    ∧ wfParams rest = true := by
  simp only [wfParams, Bool.and_eq_true] at h
  obtain ⟨⟨h1, h2⟩, h3⟩ := h
  refine ⟨?_, ?_, h3⟩
  · intro hk
    rw [hk] at h1
    simp only [Bool.not_true, Bool.false_or, Bool.and_eq_true] at h1
    exact ⟨h1.1, by simpa using h1.2⟩
  · intro hd
    rw [hd] at h2
    simpa using h2

theorem filter_cons_pos {p : Param} {rest : List Param} (hp : isRequired p = true) :
    List.filter isRequired (p :: rest) = p :: List.filter isRequired rest := by
  simp [List.filter_cons, hp]

theorem filter_cons_neg {p : Param} {rest : List Param} (hp : isRequired p = false) :
    List.filter isRequired (p :: rest) = List.filter isRequired rest := by
  simp [List.filter_cons, hp]

theorem numRequired_le_of_default :
    ∀ (ps : List Param) (i : Nat) (h : i < ps.length),
      wfParams ps = true → (ps.get ⟨i, h⟩).hasDefault = true →
      (requiredParams ps).length ≤ i := by
  intro ps
  induction ps with
  | nil => intro i h; simp at h
  | cons p rest ih =>
    intro i h hwf hdef
    obtain ⟨_, hw2, hw3⟩ := wfParams_cons hwf
    cases i with
    | zero =>
      have hd : p.hasDefault = true := hdef
      have hrest : requiredParams rest = [] := requiredParams_nil_of_all_default (hw2 hd)
      have hp : isRequired p = false := by simp [isRequired, hd]
      rw [requiredParams_eq_filter, filter_cons_neg hp, ← requiredParams_eq_filter, hrest]
      simp
    | succ i =>
      have hlt : i < rest.length := by simpa using h
      have hdef2 : (rest.get ⟨i, hlt⟩).hasDefault = true := by
        simpa using hdef
      have hrec := ih i hlt hw3 hdef2
      rw [requiredParams_eq_filter]
      cases hp : isRequired p with
      | true =>
        rw [filter_cons_pos hp]
        simp only [List.length_cons]
        rw [← requiredParams_eq_filter]
        omega
      | false =>
        rw [filter_cons_neg hp]
        rw [← requiredParams_eq_filter]
        omega

theorem get_of_getElem? {ps : List Param} {i : Nat} {p : Param} (hpi : ps[i]? = some p) :
    ∃ h : i < ps.length, ps.get ⟨i, h⟩ = p := by
  obtain ⟨h, heq⟩ := List.getElem?_eq_some.mp hpi
  exact ⟨h, by simpa using heq⟩

theorem effectiveArgsAux_eq_self (ps : List Param) :
    ∀ (args : List String) (i : Nat),
      (∀ j (h : j < ps.length), i ≤ j → j < i + args.length →
        (ps.get ⟨j, h⟩).hasDefault = false) →
      effectiveArgsAux ps i args = args := by
  intro args
  induction args with
  | nil => intro i _; rfl
  | cons a rest ih =>
    intro i hnd
    show effectiveArgsAux ps i (a :: rest) = a :: rest
    cases hpi : ps[i]? with
    | none =>
      simp only [effectiveArgsAux, hpi]
      rw [ih (i + 1) (fun j h hj1 hj2 => hnd j h (by omega) (by simp only [List.length_cons] at hj2 ⊢; omega))]
    | some p =>
      obtain ⟨hi, hget⟩ := get_of_getElem? hpi
      have hd : p.hasDefault = false := by
        rw [← hget]
        exact hnd i hi (le_refl i) (by simp)
      simp only [effectiveArgsAux, hpi, hd, Bool.and_false, Bool.false_eq_true,
        if_false]
      rw [ih (i + 1) (fun j h hj1 hj2 => hnd j h (by omega) (by simp only [List.length_cons] at hj2 ⊢; omega))]

theorem effectiveArgsAux_cases (ps : List Param) :
    ∀ (args : List String) (i : Nat),
      effectiveArgsAux ps i args = args ∨
      ∃ k, k < args.length ∧ ∃ h : i + k < ps.length,
        effectiveArgsAux ps i args = args.take k ∧ (ps.get ⟨i + k, h⟩).hasDefault = true := by
  intro args
  induction args with
  | nil => intro i; left; rfl
  | cons a rest ih =>
    intro i
    cases hpi : ps[i]? with
    | none =>
      rcases ih (i + 1) with heq | ⟨k, hk, h, heq, hd⟩
      · left; simp only [effectiveArgsAux, hpi]; rw [heq]
      · right
        refine ⟨k + 1, by simpa using Nat.succ_lt_succ hk, by omega, ?_, ?_⟩
        · simp only [effectiveArgsAux, hpi, List.take_succ_cons]
          rw [heq]
        · have harith : i + (k + 1) = i + 1 + k := by omega
          simp only [harith]
          exact hd
    | some p =>
      obtain ⟨hi, hget⟩ := get_of_getElem? hpi
      cases hcond : (a == "none" && p.hasDefault) with
      | true =>
        right
        refine ⟨0, by simp, by omega, ?_, ?_⟩
        · simp only [effectiveArgsAux, hpi, hcond, if_true, List.take_zero]
        · have : (ps.get ⟨i + 0, by omega⟩).hasDefault = p.hasDefault := by
            simp only [Nat.add_zero]
            rw [hget]
          rw [this]
          exact (Bool.and_eq_true _ _ |>.mp hcond).2
      | false =>
        rcases ih (i + 1) with heq | ⟨k, hk, h, heq, hd⟩
        · left
          simp only [effectiveArgsAux, hpi, hcond, Bool.false_eq_true, if_false]
          rw [heq]
        · right
          refine ⟨k + 1, by simpa using Nat.succ_lt_succ hk, by omega, ?_, ?_⟩
          · simp only [effectiveArgsAux, hpi, hcond, Bool.false_eq_true, if_false,
              List.take_succ_cons]
            rw [heq]
          · have harith : i + (k + 1) = i + 1 + k := by omega
            simp only [harith]
            exact hd

theorem unionLoop_first_success :
    ∀ (ts1 : List TypeShape) (t : TypeShape) (ts2 : List TypeShape) (arg nm : String)
      (v : Value),
      (∀ t2 ∈ ts1, (transformSingle t2 arg nm true).2 = Option.none) →
      (transformSingle t arg nm true).2 = some v →
      (unionLoop (ts1 ++ t :: ts2) arg nm).2 = some v := by
  intro ts1
  induction ts1 with
  | nil =>
    intro t ts2 arg nm v _ hv
    show (unionLoop (t :: ts2) arg nm).2 = some v
    rcases hres : transformSingle t arg nm true with ⟨evs, r⟩
    have hr : r = some v := by rw [hres] at hv; exact hv
    simp only [unionLoop, hres, hr]
  | cons t2 rest ih =>
    intro t ts2 arg nm v hfail hv
    have h2 : (transformSingle t2 arg nm true).2 = Option.none :=
      hfail t2 (by simp)
    rcases hres : transformSingle t2 arg nm true with ⟨evs, r⟩
    have hr : r = Option.none := by rw [hres] at h2; exact h2
    subst hr
    show (unionLoop (t2 :: (rest ++ t :: ts2)) arg nm).2 = some v
    simp only [unionLoop, hres]
    rcases hrec : unionLoop (rest ++ t :: ts2) arg nm with ⟨evs2, r2⟩
    have : r2 = some v := by
      have := ih t ts2 arg nm v (fun x hx => hfail x (by simp [hx])) hv
      rw [hrec] at this
      exact this
    simp [this]

theorem unionLoop_all_fail :
    ∀ (ts : List TypeShape) (arg nm : String),
      (∀ t ∈ ts, (transformSingle t arg nm true).2 = Option.none) →
      (unionLoop ts arg nm).2 = Option.none := by
  intro ts
  induction ts with
  | nil => intro arg nm _; rfl
  | cons t rest ih =>
    intro arg nm hfail
    have h2 : (transformSingle t arg nm true).2 = Option.none := hfail t (by simp)
    rcases hres : transformSingle t arg nm true with ⟨evs, r⟩
    have hr : r = Option.none := by rw [hres] at h2; exact h2
    subst hr
    show (unionLoop (t :: rest) arg nm).2 = Option.none
    simp only [unionLoop, hres]
    rcases hrec : unionLoop rest arg nm with ⟨evs2, r2⟩
    have : r2 = Option.none := by
      have := ih arg nm (fun x hx => hfail x (by simp [hx]))
      rw [hrec] at this
      exact this
    simp [this]

theorem transformSingle_ne_none :
    ∀ (ty : TypeShape) (arg nm : String) (sup : Bool) (v : Value),
      (transformSingle ty arg nm sup).2 = some v → v ≠ Value.none := by
  intro ty arg nm sup v h
  cases ty with
  | lit values =>
    simp only [transformSingle] at h
    rcases hf : values.find? (fun lv => litMatch lv arg) with _ | lv
    · rw [hf] at h; simp at h
    · rw [hf] at h
      simp only at h
      have : litToValue lv = v := by
        injection h
      rw [← this]
      cases lv <;> simp [litToValue]
  | enum tyName members =>
    simp only [transformSingle] at h
    by_cases hm : members.contains arg = true
    · rw [if_pos hm] at h
      simp only [Option.some.injEq] at h
      rw [← h]
      simp
    · rw [if_neg hm] at h
      simp at h
  | int =>
    simp only [transformSingle] at h
    rcases hp : parseInt arg with _ | n <;> rw [hp] at h <;> simp at h
    rw [← h]; simp
  | float =>
    simp only [transformSingle] at h
    rcases hp : parseFloat arg with _ | q <;> rw [hp] at h <;> simp at h
    rw [← h]; simp
  | bytes =>
    simp only [transformSingle, Option.some.injEq] at h
    rw [← h]; simp
  | bool =>
    simp only [transformSingle] at h
    by_cases hb : (pyLower arg == "true" || pyLower arg == "false") = true
    · rw [if_pos hb] at h
      simp only [Option.some.injEq] at h
      rw [← h]; simp
    · rw [if_neg hb] at h
      simp at h
  | list elemTy =>
    simp only [transformSingle] at h
    rcases helems : (if arg == "" then [] else splitOnChar ',' arg) with _ | ⟨e, es⟩
    · rw [helems] at h
      simp only [Option.some.injEq] at h
      rw [← h]; simp
    · rw [helems] at h
      rcases hres : transformElemsAcc
          (fun e => transformSingle elemTy e nm false) (e :: es) with ⟨evs, r⟩
      rw [hres] at h
      cases r with
      | none => simp at h
      | some vs =>
        simp only [Option.some.injEq] at h
        rw [← h]; simp
  | union cands hasNone =>
    simp only [transformSingle, Option.some.injEq] at h
    rw [← h]; simp
  | str =>
    simp only [transformSingle, Option.some.injEq] at h
    rw [← h]; simp

theorem unionLoop_ne_none :
    ∀ (ts : List TypeShape) (arg nm : String) (v : Value),
      (unionLoop ts arg nm).2 = some v → v ≠ Value.none := by
  intro ts
  induction ts with
  | nil => intro arg nm v h; simp [unionLoop] at h
  | cons t rest ih =>
    intro arg nm v h
    rcases hres : transformSingle t arg nm true with ⟨evs, r⟩
    cases r with
    | some w =>
      have : w = v := by
        simp only [unionLoop, hres] at h
        injection h
      exact this ▸ transformSingle_ne_none t arg nm true w (by rw [hres])
    | none =>
      rcases hrec : unionLoop rest arg nm with ⟨evs2, r2⟩
      simp only [unionLoop, hres, hrec] at h
      exact ih arg nm v (by rw [hrec]; exact h)

theorem transformElemsAcc_events {P : Event → Prop}
    (f : String → List Event × Option Value)
    (hf : ∀ s e, e ∈ (f s).1 → P e) :
    ∀ (l : List String) (e : Event), e ∈ (transformElemsAcc f l).1 → P e := by
  intro l
  induction l with
  | nil => intro e he; simp [transformElemsAcc] at he
  | cons a rest ih =>
    intro e he
    rcases hres : f (pyTrim a) with ⟨evs, r⟩
    cases r with
    | none =>
      simp only [transformElemsAcc, hres] at he
      exact hf (pyTrim a) e (by rw [hres]; exact he)
    | some v =>
      rcases hrec : transformElemsAcc f rest with ⟨evs2, r2⟩
      cases r2 with
      | none =>
        simp only [transformElemsAcc, hres, hrec, List.mem_append] at he
        rcases he with he | he
        · exact hf (pyTrim a) e (by rw [hres]; exact he)
        · exact ih e (by rw [hrec]; exact he)
      | some vs =>
        simp only [transformElemsAcc, hres, hrec, List.mem_append] at he
        rcases he with he | he
        · exact hf (pyTrim a) e (by rw [hres]; exact he)
        · exact ih e (by rw [hrec]; exact he)

theorem transformSingle_events :
    (ty : TypeShape) → ∀ (arg nm : String) (sup : Bool) (e : Event),
      e ∈ (transformSingle ty arg nm sup).1 →
      ∃ a b c d, e = Event.typeTransformError a b c d
  | .lit values => by
    intro arg nm sup e he
    simp only [transformSingle] at he
    rcases hf : values.find? (fun lv => litMatch lv arg) with _ | lv <;> rw [hf] at he
    · cases sup with
      | true => simp at he
      | false =>
        simp only [Bool.false_eq_true, if_false, List.mem_singleton] at he
        exact ⟨_, _, _, _, he⟩
    · simp at he
  | .enum tyName members => by
    intro arg nm sup e he
    simp only [transformSingle] at he
    by_cases hm : members.contains arg = true
    · rw [if_pos hm] at he; simp at he
    · rw [if_neg hm] at he
      cases sup with
      | true => simp at he
      | false =>
        simp only [Bool.false_eq_true, if_false, List.mem_singleton] at he
        exact ⟨_, _, _, _, he⟩
  | .int => by
    intro arg nm sup e he
    simp only [transformSingle] at he
    rcases hp : parseInt arg with _ | n <;> rw [hp] at he
    · cases sup with
      | true => simp at he
      | false => simp only [Bool.false_eq_true, if_false, List.mem_singleton] at he; exact ⟨_, _, _, _, he⟩
    · simp at he
  | .float => by
    intro arg nm sup e he
    simp only [transformSingle] at he
    rcases hp : parseFloat arg with _ | q <;> rw [hp] at he
    · cases sup with
      | true => simp at he
      | false => simp only [Bool.false_eq_true, if_false, List.mem_singleton] at he; exact ⟨_, _, _, _, he⟩
    · simp at he
  | .bytes => by intro arg nm sup e he; simp [transformSingle] at he
  | .bool => by
    intro arg nm sup e he
    simp only [transformSingle] at he
    by_cases hb : (pyLower arg == "true" || pyLower arg == "false") = true
    · rw [if_pos hb] at he; simp at he
    · rw [if_neg hb] at he
      cases sup with
      | true => simp at he
      | false => simp only [Bool.false_eq_true, if_false, List.mem_singleton] at he; exact ⟨_, _, _, _, he⟩
  | .list elemTy => by
    intro arg nm sup e he
    have ih := transformSingle_events elemTy
    simp only [transformSingle] at he
    rcases helems : (if arg == "" then [] else splitOnChar ',' arg) with _ | ⟨x, xs⟩ <;>
      rw [helems] at he
    · simp at he
    · rcases hres : transformElemsAcc
          (fun s => transformSingle elemTy s nm false) (x :: xs) with ⟨evs, r⟩
      rw [hres] at he
      have hin : e ∈ evs := by
        cases r <;> simpa using he
      have := transformElemsAcc_events
        (fun s => transformSingle elemTy s nm false)
        (fun s ev hev => ih s nm false ev hev) (x :: xs) e (by rw [hres]; exact hin)
      exact this
  | .union cands hasNone => by intro arg nm sup e he; simp [transformSingle] at he
  | .str => by intro arg nm sup e he; simp [transformSingle] at he

theorem unionLoop_events :
    ∀ (ts : List TypeShape) (arg nm : String) (e : Event),
      e ∈ (unionLoop ts arg nm).1 → ∃ a b c d, e = Event.typeTransformError a b c d := by
  intro ts
  induction ts with
  | nil => intro arg nm e he; simp [unionLoop] at he
  | cons t rest ih =>
    intro arg nm e he
    rcases hres : transformSingle t arg nm true with ⟨evs, r⟩
    cases r with
    | some v =>
      simp only [unionLoop, hres] at he
      exact transformSingle_events t arg nm true e (by rw [hres]; exact he)
    | none =>
      rcases hrec : unionLoop rest arg nm with ⟨evs2, r2⟩
      simp only [unionLoop, hres, hrec, List.mem_append] at he
      rcases he with he | he
      · exact transformSingle_events t arg nm true e (by rw [hres]; exact he)
      · exact ih arg nm e (by rw [hrec]; exact he)

theorem coerceSingleWrap_events (ty : TypeShape) (arg nm : String) (e : Event)
    (he : e ∈ (coerceSingleWrap ty arg nm).1) :
    ∃ a b c d, e = Event.typeTransformError a b c d := by
  rcases hts : transformSingle ty arg nm false with ⟨evs, r⟩
  simp only [coerceSingleWrap, hts] at he
  have hin : e ∈ evs := by cases r <;> simpa using he
  exact transformSingle_events ty arg nm false e (by rw [hts]; exact hin)

theorem coerceSingleWrap_ne_none (ty : TypeShape) (arg nm : String) (evs : List Event)
    (v : Value) (h : coerceSingleWrap ty arg nm = (evs, Except.ok v)) : v ≠ Value.none := by
  rcases hts : transformSingle ty arg nm false with ⟨evs2, r⟩
  simp only [coerceSingleWrap, hts] at h
  cases r with
  | some w =>
    have hv : w = v := by
      injection h with h1 h2
      injection h2
    exact hv ▸ transformSingle_ne_none ty arg nm false w (by rw [hts])
  | none =>
    injection h with h1 h2
    cases h2

theorem coerceOne_events :
    ∀ (ty? : Option TypeShape) (arg nm : String) (e : Event),
      e ∈ (coerceOne ty? arg nm).1 → ∃ a b c d, e = Event.typeTransformError a b c d := by
  intro ty? arg nm e he
  match ty? with
  | Option.none => simp [coerceOne] at he
  | some (.union cands hasNone) =>
    simp only [coerceOne] at he
    by_cases hc : cands.isEmpty = true
    · rw [if_pos hc] at he; simp at he
    · rw [if_neg hc] at he
      rcases hres : unionLoop cands arg nm with ⟨evs, r⟩
      rw [hres] at he
      cases r with
      | some v =>
        simp only at he
        exact unionLoop_events cands arg nm e (by rw [hres]; exact he)
      | none =>
        simp only [List.mem_append, List.mem_singleton] at he
        rcases he with he | he
        · exact unionLoop_events cands arg nm e (by rw [hres]; exact he)
        · exact ⟨_, _, _, _, he⟩
  | some .int => exact coerceSingleWrap_events _ arg nm e he
  | some .float => exact coerceSingleWrap_events _ arg nm e he
  | some .str => exact coerceSingleWrap_events _ arg nm e he
  | some .bool => exact coerceSingleWrap_events _ arg nm e he
  | some .bytes => exact coerceSingleWrap_events _ arg nm e he
  | some (.enum tyName members) => exact coerceSingleWrap_events _ arg nm e he
  | some (.lit values) => exact coerceSingleWrap_events _ arg nm e he
  | some (.list elemTy) => exact coerceSingleWrap_events _ arg nm e he

theorem transformTypesAux_events (argNames : List String) :
    ∀ (pairs : List (Option TypeShape × Option String)) (i : Nat) (e : Event),
      e ∈ (transformTypesAux argNames i pairs).1 →
      ∃ a b c d, e = Event.typeTransformError a b c d := by
  intro pairs
  induction pairs with
  | nil => intro i e he; simp [transformTypesAux] at he
  | cons pr rest ih =>
    intro i e he
    rcases pr with ⟨ty?, arg?⟩
    by_cases hnb : ((arg? == some "none" || arg?.isNone) && isNoneUnion ty?) = true
    · rcases hrec : transformTypesAux argNames (i + 1) rest with ⟨evs2, r2⟩
      simp only [transformTypesAux, hnb, if_true] at he
      rw [hrec] at he
      have hin : e ∈ evs2 := by cases r2 <;> simpa using he
      exact ih (i + 1) e (by rw [hrec]; exact hin)
    · have hflat : ((arg? == some "none" || arg?.isNone) && isNoneUnion ty?) = false := by
        cases h2 : ((arg? == some "none" || arg?.isNone) && isNoneUnion ty?)
        · rfl
        · exact absurd h2 hnb
      cases arg? with
      | none =>
        simp only [transformTypesAux, hflat, Bool.false_eq_true, if_false] at he
        simp at he
      | some arg =>
        cases hnm : argNames[i]? with
        | none =>
          simp only [transformTypesAux, hflat, Bool.false_eq_true, if_false, hnm] at he
          simp at he
        | some nm =>
          rcases hco : coerceOne ty? arg nm with ⟨evs, r⟩
          cases r with
          | error err =>
            simp only [transformTypesAux, hflat, Bool.false_eq_true, if_false, hnm,
              hco] at he
            exact coerceOne_events ty? arg nm e (by rw [hco]; exact he)
          | ok v =>
            rcases hrec : transformTypesAux argNames (i + 1) rest with ⟨evs2, r2⟩
            simp only [transformTypesAux, hflat, Bool.false_eq_true, if_false, hnm,
              hco, hrec] at he
            have : e ∈ evs ∨ e ∈ evs2 := by
              cases r2 <;> simp only [List.mem_append] at he <;> simpa using he
            rcases this with hin | hin
            · exact coerceOne_events ty? arg nm e (by rw [hco]; exact hin)
            · exact ih (i + 1) e (by rw [hrec]; exact hin)

theorem transformTypes_events (types : List TypeShape) (args : List String)
    (argNames : List String) (e : Event) (he : e ∈ (transformTypes types args argNames).1) :
    ∃ a b c d, e = Event.typeTransformError a b c d :=
  transformTypesAux_events argNames (zipLongest types args) 0 e he

theorem bindCount_shape (c : CommandInfo) (eff : List String) (ev : Event)
    (h : bindCount c eff = some ev) :
    ∃ m p q t, ev = Event.argumentCountError c.name m p q t := by
  by_cases hcond : eff.length < (requiredParams c.params).length ∨
      ((c.params.any fun p => p.kind == PKind.varPositional) = false ∧
        c.params.length < eff.length)
  · simp only [bindCount, if_pos hcond, Option.some.injEq] at h
    exact ⟨_, _, _, _, h.symm⟩
  · simp only [bindCount, if_neg hcond] at h
    cases h

theorem bindTransform_events (c : CommandInfo) (eff : List String) :
    (∀ evs, bindTransform c eff = .transformFailed evs →
      ∀ e ∈ evs, ∃ a b c2 d, e = Event.typeTransformError a b c2 d)
    ∧ (∀ evs, bindTransform c eff = .pyError evs →
      ∀ e ∈ evs, ∃ a b c2 d, e = Event.typeTransformError a b c2 d)
    ∧ (∀ evs vals, bindTransform c eff = .ok evs vals →
      ∀ e ∈ evs, ∃ a b c2 d, e = Event.typeTransformError a b c2 d) := by
  cases eff with
  | nil =>
    refine ⟨?_, ?_, ?_⟩
    · intro evs h e he
      by_cases hr : 0 < (requiredParams c.params).length
      · simp only [bindTransform, if_pos hr] at h
        cases h
      · simp only [bindTransform, if_neg hr] at h
        cases h
    · intro evs h e he
      by_cases hr : 0 < (requiredParams c.params).length
      · simp only [bindTransform, if_pos hr] at h
        cases h
        simp at he
      · simp only [bindTransform, if_neg hr] at h
        cases h
    · intro evs vals h e he
      by_cases hr : 0 < (requiredParams c.params).length
      · simp only [bindTransform, if_pos hr] at h
        cases h
      · simp only [bindTransform, if_neg hr] at h
        cases h
        simp at he
  | cons a rest =>
    rcases htr : transformTypes (typesToTransform c.params (a :: rest).length) (a :: rest)
        (namesToTransform c.params (a :: rest).length) with ⟨evs0, r0⟩
    have hevs : ∀ e ∈ evs0, ∃ a2 b c2 d, e = Event.typeTransformError a2 b c2 d := by
      intro e he
      refine transformTypes_events (typesToTransform c.params (a :: rest).length)
        (a :: rest) (namesToTransform c.params (a :: rest).length) e ?_
      rw [htr]
      exact he
    have hstep : bindTransform c (a :: rest) =
        (match r0 with
         | .ok vals => BindResult.ok evs0 vals
         | .error PyFail.invalidArgument => BindResult.transformFailed evs0
         | .error PyFail.assertionError => BindResult.pyError evs0
         | .error PyFail.indexError => BindResult.pyError evs0) := by
      simp only [bindTransform, htr]
      rcases r0 with f | vals
      · cases f <;> rfl
      · rfl
    refine ⟨?_, ?_, ?_⟩
    · intro evs h e he
      have hx : bindTransform c (a :: rest) = BindResult.transformFailed evs := h
      rw [hstep] at hx
      rcases r0 with f | vals
      · cases f
        · cases hx; exact hevs e he
        · cases hx
        · cases hx
      · cases hx
    · intro evs h e he
      have hx : bindTransform c (a :: rest) = BindResult.pyError evs := h
      rw [hstep] at hx
      rcases r0 with f | vals
      · cases f
        · cases hx
        · cases hx; exact hevs e he
        · cases hx; exact hevs e he
      · cases hx
    · intro evs vals h e he
      have hx : bindTransform c (a :: rest) = BindResult.ok evs vals := h
      rw [hstep] at hx
      rcases r0 with f | vals0
      · cases f <;> cases hx
      · cases hx; exact hevs e he

theorem walk_nonchild (reg : CommandRegistry) (id : Nat) (args : List String)
    (h : ∀ a, args.head? = some a → dictGet (arenaGet reg id).children a = Option.none) :
    walk reg id args = (id, args) := by
  cases args with
  | nil => rfl
  | cons a rest =>
    have := h a rfl
    simp only [walk, this]

theorem bindTransform_ne_countError (c : CommandInfo) (eff : List String) (ev : Event) :
    bindTransform c eff ≠ BindResult.countError ev := by
  cases eff with
  | nil =>
    by_cases hr : 0 < (requiredParams c.params).length
    · simp only [bindTransform, if_pos hr]
      intro h
      cases h
    · simp only [bindTransform, if_neg hr]
      intro h
      cases h
  | cons a rest =>
    rcases htr : transformTypes (typesToTransform c.params (a :: rest).length) (a :: rest)
        (namesToTransform c.params (a :: rest).length) with ⟨evs0, r0⟩
    have hstep : bindTransform c (a :: rest) =
        (match r0 with
         | .ok vals => BindResult.ok evs0 vals
         | .error PyFail.invalidArgument => BindResult.transformFailed evs0
         | .error PyFail.assertionError => BindResult.pyError evs0
         | .error PyFail.indexError => BindResult.pyError evs0) := by
      simp only [bindTransform, htr]
      rcases r0 with f | vals
      · cases f <;> rfl
      · rfl
    rw [hstep]
    rcases r0 with f | vals
    · cases f <;> intro h <;> cases h
    · intro h
      cases h

theorem execute_no_loop_interrupt (reg : CommandRegistry)
    (beh : Nat → List Value → FuncResult) (parts : List String) :
    Event.interrupt ∉ (execute reg beh parts).events := by
  match parts with
  | [] => simp [execute]
  | tok :: rest =>
    cases hlook : dictGet reg.commands tok with
    | none => simp [execute, hlook]
    | some rootId =>
      cases hpar : (arenaGet reg rootId).parent.isSome with
      | true => simp [execute, hlook, hpar]
      | false =>
        rcases hb : bindArgs (arenaGet reg (walk reg rootId rest).1) (walk reg rootId rest).2
          with ev | evs | evs | ⟨evs, vals⟩
        · have hsh : ∃ m p q t, ev =
              Event.argumentCountError (arenaGet reg (walk reg rootId rest).1).name m p q t := by
            rcases hb2 : bindCount (arenaGet reg (walk reg rootId rest).1)
                (effectiveArgs (arenaGet reg (walk reg rootId rest).1).params
                  (walk reg rootId rest).2) with _ | ev2
            · simp only [bindArgs, hb2] at hb
              exact absurd hb (bindTransform_ne_countError _ _ _)
            · have hsh2 := bindCount_shape _ _ _ hb2
              simp only [bindArgs, hb2] at hb
              cases hb
              exact hsh2
          have hx : execute reg beh (tok :: rest) = ⟨[ev], Option.none⟩ := by
            simp [execute, hlook, hpar, hb]
          rw [hx]
          obtain ⟨m, p, q, t, hev⟩ := hsh
          subst hev
          simp
        · have hevs : ∀ e ∈ evs, ∃ a b c2 d, e = Event.typeTransformError a b c2 d := by
            intro e he
            rcases hb2 : bindCount (arenaGet reg (walk reg rootId rest).1)
                (effectiveArgs (arenaGet reg (walk reg rootId rest).1).params
                  (walk reg rootId rest).2) with _ | ev2
            · simp only [bindArgs, hb2] at hb
              exact (bindTransform_events _ _).1 evs hb _ he
            · simp only [bindArgs, hb2] at hb
              cases hb
          have hx : execute reg beh (tok :: rest) = ⟨evs, Option.none⟩ := by
            simp [execute, hlook, hpar, hb]
          rw [hx]
          intro hin
          obtain ⟨_, _, _, _, hcontra⟩ := hevs _ hin
          cases hcontra
        · have hevs : ∀ e ∈ evs, ∃ a b c2 d, e = Event.typeTransformError a b c2 d := by
            intro e he
            rcases hb2 : bindCount (arenaGet reg (walk reg rootId rest).1)
                (effectiveArgs (arenaGet reg (walk reg rootId rest).1).params
                  (walk reg rootId rest).2) with _ | ev2
            · simp only [bindArgs, hb2] at hb
              exact (bindTransform_events _ _).2.1 evs hb _ he
            · simp only [bindArgs, hb2] at hb
              cases hb
          have hx : execute reg beh (tok :: rest) =
              ⟨evs ++ [Event.unexpectedException], Option.none⟩ := by
            simp [execute, hlook, hpar, hb]
          rw [hx]
          intro hin
          simp only [List.mem_append, List.mem_singleton] at hin
          rcases hin with hin | hin
          · obtain ⟨_, _, _, _, hcontra⟩ := hevs _ hin
            cases hcontra
          · cases hin
        · have hevs : ∀ e ∈ evs, ∃ a b c2 d, e = Event.typeTransformError a b c2 d := by
            intro e he
            rcases hb2 : bindCount (arenaGet reg (walk reg rootId rest).1)
                (effectiveArgs (arenaGet reg (walk reg rootId rest).1).params
                  (walk reg rootId rest).2) with _ | ev2
            · simp only [bindArgs, hb2] at hb
              exact (bindTransform_events _ _).2.2 evs vals hb _ he
            · simp only [bindArgs, hb2] at hb
              cases hb
          have hnotin : Event.interrupt ∉ evs := by
            intro hin
            obtain ⟨_, _, _, _, hcontra⟩ := hevs _ hin
            cases hcontra
          cases hbeh : beh (walk reg rootId rest).1 vals
          case ret =>
            have hx : execute reg beh (tok :: rest) =
                ⟨evs, some ((walk reg rootId rest).1, vals)⟩ := by
              simp [execute, hlook, hpar, hb, hbeh]
            rw [hx]
            exact hnotin
          case kbInterrupt =>
            have hx : execute reg beh (tok :: rest) =
                ⟨evs ++ [Event.commandInterrupt], some ((walk reg rootId rest).1, vals)⟩ := by
              simp [execute, hlook, hpar, hb, hbeh]
            rw [hx]
            intro hin
            simp only [List.mem_append, List.mem_singleton] at hin
            rcases hin with hin | hin
            · exact hnotin hin
            · cases hin
          case interruptExc =>
            have hx : execute reg beh (tok :: rest) =
                ⟨evs ++ [Event.commandException], some ((walk reg rootId rest).1, vals)⟩ := by
              simp [execute, hlook, hpar, hb, hbeh]
            rw [hx]
            intro hin
            simp only [List.mem_append, List.mem_singleton] at hin
            rcases hin with hin | hin
            · exact hnotin hin
            · cases hin
          case exc =>
            have hx : execute reg beh (tok :: rest) =
                ⟨evs ++ [Event.commandException], some ((walk reg rootId rest).1, vals)⟩ := by
              simp [execute, hlook, hpar, hb, hbeh]
            rw [hx]
            intro hin
            simp only [List.mem_append, List.mem_singleton] at hin
            rcases hin with hin | hin
            · exact hnotin hin
            · cases hin

theorem coerceOne_ne_none (ty? : Option TypeShape) (arg nm : String) (evs : List Event)
    (v : Value) (hco : coerceOne ty? arg nm = (evs, Except.ok v)) : v ≠ Value.none := by
  match ty? with
  | Option.none =>
    have hv : Value.str arg = v := by
      simp only [coerceOne] at hco
      injection hco with h1 h2
      injection h2
    rw [← hv]
    simp
  | some (.union cands hN) =>
    simp only [coerceOne] at hco
    by_cases hc : cands.isEmpty = true
    · rw [if_pos hc] at hco
      injection hco with h1 h2
      cases h2
    · rw [if_neg hc] at hco
      rcases hu : unionLoop cands arg nm with ⟨evs2, r⟩
      rw [hu] at hco
      cases r with
      | some w =>
        have hv : w = v := by
          simp only at hco
          injection hco with h1 h2
          injection h2
        exact hv ▸ unionLoop_ne_none cands arg nm w (by rw [hu])
      | none =>
        simp only at hco
        injection hco with h1 h2
        cases h2
  | some .int =>
    exact coerceSingleWrap_ne_none TypeShape.int arg nm evs v hco
  | some .float =>
    exact coerceSingleWrap_ne_none TypeShape.float arg nm evs v hco
  | some .str =>
    exact coerceSingleWrap_ne_none TypeShape.str arg nm evs v hco
  | some .bool =>
    exact coerceSingleWrap_ne_none TypeShape.bool arg nm evs v hco
  | some .bytes =>
    exact coerceSingleWrap_ne_none TypeShape.bytes arg nm evs v hco
  | some (.enum tyName members) =>
    exact coerceSingleWrap_ne_none (.enum tyName members) arg nm evs v hco
  | some (.lit values) =>
    exact coerceSingleWrap_ne_none (.lit values) arg nm evs v hco
  | some (.list elemTy) =>
    exact coerceSingleWrap_ne_none (.list elemTy) arg nm evs v hco

/-- Claim C1 (confirmed).  For a union of non-none candidates, coercion
attempts each candidate in declaration order and returns the value of the
first one that succeeds, swallowing the failures of the earlier candidates
(first conjunct); when every candidate fails, it raises a single combined
failure whose event names all candidate type names joined with `" | "`
(second conjunct); and for a parameter typed `int | str`, token `"42"`
coerces to the integer `42` and token `"abc"` to the string `"abc"` (last
two conjuncts). -/
theorem lunar_c1 :
    (∀ (ts1 : List TypeShape) (t : TypeShape) (ts2 : List TypeShape) (arg nm : String)
      (v : Value),
      (∀ t2 ∈ ts1, (transformSingle t2 arg nm true).2 = Option.none) →
      (transformSingle t arg nm true).2 = some v →
      (coerceOne (some (.union (ts1 ++ t :: ts2) false)) arg nm).2 = .ok v)
    ∧ (∀ (ts : List TypeShape) (arg nm : String), ts ≠ [] →
      (∀ t ∈ ts, (transformSingle t arg nm true).2 = Option.none) →
      coerceOne (some (.union ts false)) arg nm
        = ((unionLoop ts arg nm).1
            ++ [Event.typeTransformError arg nm (some (joinTypeNames ts)) Option.none],
           .error .invalidArgument))
    ∧ transformTypes [.union [.int, .str] false] ["42"] ["p"] = ([], .ok [Value.int 42])
    ∧ transformTypes [.union [.int, .str] false] ["abc"] ["p"] = ([], .ok [Value.str "abc"]) := by
  refine ⟨?_, ?_, rfl, rfl⟩
  · intro ts1 t ts2 arg nm v hfail hv
    have hne : (ts1 ++ t :: ts2).isEmpty = false := by
      cases ts1 <;> rfl
    have hval := unionLoop_first_success ts1 t ts2 arg nm v hfail hv
    rcases hu : unionLoop (ts1 ++ t :: ts2) arg nm with ⟨evs, r⟩
    have hr : r = some v := by rw [hu] at hval; exact hval
    subst hr
    simp only [coerceOne, hne, Bool.false_eq_true, if_false, hu]
  · intro ts arg nm hts hfail
    have hne : ts.isEmpty = false := by
      cases ts with
      | nil => exact absurd rfl hts
      | cons t rest => rfl
    have hval := unionLoop_all_fail ts arg nm hfail
    rcases hu : unionLoop ts arg nm with ⟨evs, r⟩
    have hr : r = Option.none := by rw [hu] at hval; exact hval
    subst hr
    simp only [coerceOne, hne, Bool.false_eq_true, if_false, hu]

/-- Witness for C1: with candidates `[int, str]` and token `"abc"`, the
`int` candidate fails and the `str` candidate succeeds, so the union
coercion returns the string `"abc"`. -/
theorem lunar_c1_witness :
    (coerceOne (some (.union [.int, .str] false)) "abc" "p").2 = .ok (Value.str "abc") :=
  lunar_c1.1 [.int] .str [] "abc" "p" (Value.str "abc")
    (by
      intro t2 ht2
      rw [List.mem_singleton] at ht2
      subst ht2
      rfl)
    rfl

/-- Claim C8 (corrected).  Coercing the token `"none"` yields the absence
marker exactly when the declared annotation is a union containing
`NoneType` (first conjunct: such a union always yields the marker; third
conjunct: the ordinary per-token coercion, used for every other shape,
never produces the marker).  For any other shape the token `"none"` is not
special: it goes through the shape's ordinary coercion rule (second
conjunct), which may succeed — plain `str` yields the string `"none"`, see
`lunar_c8_counterexample` — or fail, as for `int` (fourth conjunct). -/
theorem lunar_c8_amended :
    (∀ (cands : List TypeShape) (nm : String),
      transformTypes [.union cands true] ["none"] [nm] = ([], .ok [Value.none]))
    ∧ (∀ (s : TypeShape) (nm : String), isNoneUnion (some s) = false →
      transformTypes [s] ["none"] [nm]
        = (match coerceOne (some s) "none" nm with
           | (evs, .ok v) => (evs, .ok [v])
           | (evs, .error e) => (evs, .error e)))
    ∧ (∀ (s : TypeShape) (nm : String) (evs : List Event) (v : Value),
      coerceOne (some s) "none" nm = (evs, Except.ok v) → v ≠ Value.none)
    ∧ (∀ nm : String, transformTypes [TypeShape.int] ["none"] [nm]
        = ([Event.typeTransformError "none" nm (some "int") Option.none],
           .error .invalidArgument)) := by
  refine ⟨?_, ?_, ?_, ?_⟩
  · intro cands nm
    rfl
  · intro s nm hnu
    have hcondf : ((some "none" == some "none" || (some "none" : Option String).isNone)
        && isNoneUnion (some s)) = false := by
      simp [hnu]
    rcases hco : coerceOne (some s) "none" nm with ⟨evs, r⟩
    cases r with
    | ok v =>
      simp only [transformTypes, zipLongest, List.map_nil, transformTypesAux, hcondf,
        Bool.false_eq_true, if_false, List.getElem?_cons_zero, hco, List.append_nil]
    | error e =>
      simp only [transformTypes, zipLongest, List.map_nil, transformTypesAux, hcondf,
        Bool.false_eq_true, if_false, List.getElem?_cons_zero, hco, List.append_nil]
  · intro s nm evs v hco
    exact coerceOne_ne_none (some s) "none" nm evs v hco
  · intro nm
    rfl

/-- Witness for C8: the `str` shape is not a none-admitting union, and
coercing `"none"` under it goes through the ordinary rule. -/
theorem lunar_c8_witness :
    transformTypes [TypeShape.str] ["none"] ["p"]
      = (match coerceOne (some TypeShape.str) "none" "p" with
         | (evs, .ok v) => (evs, .ok [v])
         | (evs, .error e) => (evs, .error e)) :=
  lunar_c8_amended.2.1 TypeShape.str "p" rfl

/-- Claim C10 (confirmed).  When the first token of a dispatched line
resolves in the flat lookup to an entry that was registered with a parent,
dispatch fires `unknown-command` with that token and invokes no handler
(shell.py:650-653): subcommands occupy flat keys but are reachable only
through their parent's path. -/
theorem lunar_c10 (reg : CommandRegistry) (beh : Nat → List Value → FuncResult)
    (tok : String) (rest : List String) (id pid : Nat)
    (hlook : dictGet reg.commands tok = some id)
    (hpar : (arenaGet reg id).parent = some pid) :
    execute reg beh (tok :: rest) = ⟨[Event.unknownCommand tok], Option.none⟩ := by
  have hps : (arenaGet reg id).parent.isSome = true := by rw [hpar]; rfl
  simp [execute, hlook, hps]

/-- Witness for C10: in `parentChildReg`, `c` is registered under `p` and
owns the flat key `c`; dispatching the line `c` reports unknown-command
and calls nothing. -/
theorem lunar_c10_witness :
    execute parentChildReg behRet ["c"] = ⟨[Event.unknownCommand "c"], Option.none⟩ :=
  lunar_c10 parentChildReg behRet "c" [] 1 0 rfl rfl

/-- Claim C3 (code bug).  The claim says a coercion that ultimately fails
notifies the type-coercion-error handler exactly once, with candidates
tried speculatively during a union attempt never firing the event, even
for coercions performed recursively on list elements.  On the parameter
`p : list[int] | float` with token `"1,x"`, both candidates fail, yet the
handler fires twice: once from inside the speculative `list[int]` attempt
(the element recursion at shell.py:634 does not forward `suppress_error`)
for element `"x"`, and once for the final combined failure. -/
theorem lunar_c3_bug :
    transformTypes [.union [.list .int, .float] false] ["1,x"] ["p"]
      = ([Event.typeTransformError "x" "p" (some "int") Option.none,
          Event.typeTransformError "1,x" "p" (some "list | float") Option.none],
         .error .invalidArgument) := rfl

/-- Claim C4 (code bug).  After registering root `a` (index 0), `x` under
`a` (index 1, owning flat key `x`), root `b` (index 2) and `x` under `b`
(index 3), the claim (and the comment at command.py:127-130) says the new
non-root entry 3 overwrites the existing non-root flat entry, so `x`
should map to 3.  The code tests the NEW entry's parent
(`cmd_info.parent is None`, command.py:131) instead of the existing
entry's, so the flat key keeps pointing at entry 1 (the child of `a`),
even though entry 3 was linked under `b`. -/
theorem lunar_c4_bug :
    dictGet shadowReg.commands "x" = some 1
    ∧ (arenaGet shadowReg 1).parent = some 0
    ∧ dictGet (arenaGet shadowReg 2).children "x" = some 3
    ∧ (arenaGet shadowReg 3).parent = some 2
    ∧ dictGet shadowReg.commands "x" ≠ some 3 := by
  refine ⟨rfl, rfl, rfl, rfl, ?_⟩
  decide

/-- Claim C5 (code bug).  In `cycleReg` — reachable by four successful
`register` calls — deleting the root command `n` (which has a child named
`m`) never terminates: `__delitem__` deletes children by flat-lookup name,
`n`'s child name `m` resolves to the root `m`, whose child name `n`
resolves back to the root `n`, which is still present because the flat
entry is only removed after the recursion.  Python raises `RecursionError`
with the registry unmodified, so nothing is removed and the descendants'
names still resolve, contradicting the claimed deletion semantics.  In the
fuel model, no amount of fuel suffices for either deletion. -/
theorem lunar_c5_bug : ∀ fuel : Nat,
    delitemFuel fuel cycleReg "n" = Option.none
    ∧ delitemFuel fuel cycleReg "m" = Option.none := by
  intro fuel
  induction fuel with
  | zero => exact ⟨rfl, rfl⟩
  | succ f ih =>
    constructor
    · have h1 : delitemFuel (f + 1) cycleReg "n" =
          (match delitemFuel f cycleReg "m" with
           | Option.none => Option.none
           | some r2 => some ⟨r2.arena, dictDel r2.commands "n"⟩) := rfl
      rw [h1, ih.2]
    · have h1 : delitemFuel (f + 1) cycleReg "m" =
          (match delitemFuel f cycleReg "n" with
           | Option.none => Option.none
           | some r2 => some ⟨r2.arena, dictDel r2.commands "m"⟩) := rfl
      rw [h1, ih.1]

/-- Counterexample to claim C2 as stated.  For `f(a: int, b: int = 1,
c: int = 2)` bound to the tokens `["5", "none", "7"]`, the claim predicts
the `"none"` skips only `b` and binding continues, so `"7"` would be bound
to `c` (call arguments `[5, 7]`).  The code instead `break`s out of the
effective-args loop (shell.py:694), discarding `"none"` AND every later
token: the call receives only `[5]`. -/
theorem lunar_c2_counterexample :
    bindArgs skipCmd ["5", "none", "7"] = BindResult.ok [] [Value.int 5]
    ∧ bindArgs skipCmd ["5", "none", "7"] ≠ BindResult.ok [] [Value.int 5, Value.int 7] := by
  refine ⟨rfl, ?_⟩
  intro h
  rw [show bindArgs skipCmd ["5", "none", "7"] = BindResult.ok [] [Value.int 5] from rfl] at h
  injection h with h1 h2
  injection h2 with h3 h4
  cases h4

theorem getParam_congr {ps : List Param} {i j : Nat} (hij : i = j) (hi : i < ps.length) :
    ps.get ⟨i, hi⟩ = ps.get ⟨j, by omega⟩ := by
  subst hij
  rfl

theorem effectiveArgsAux_no_trigger (ps : List Param) :
    ∀ (args : List String) (i0 : Nat),
      (∀ j (hj : j < args.length), ¬(args.get ⟨j, hj⟩ = "none"
        ∧ ∃ hpj : i0 + j < ps.length, (ps.get ⟨i0 + j, hpj⟩).hasDefault = true)) →
      effectiveArgsAux ps i0 args = args := by
  intro args
  induction args with
  | nil => intro i0 _; rfl
  | cons a rest ih =>
    intro i0 hno
    have hhead : ∀ p, ps[i0]? = some p → (a == "none" && p.hasDefault) = false := by
      intro p hpi
      obtain ⟨hi, hget⟩ := get_of_getElem? hpi
      cases hcond : (a == "none" && p.hasDefault) with
      | false => rfl
      | true =>
        obtain ⟨h1, h2⟩ := Bool.and_eq_true _ _ |>.mp hcond
        exfalso
        refine hno 0 (by simp) ⟨by simpa using h1, ?_⟩
        exact ⟨by omega, by
          rw [getParam_congr (show i0 + 0 = i0 by omega), hget]
          exact h2⟩
    have hrec : effectiveArgsAux ps (i0 + 1) rest = rest := by
      apply ih (i0 + 1)
      intro j hj hcontra
      obtain ⟨h1, hpj, h2⟩ := hcontra
      refine hno (j + 1) (by simpa using Nat.succ_lt_succ hj) ⟨by simpa using h1, ?_⟩
      exact ⟨by omega, by
        rw [getParam_congr (show i0 + (j + 1) = i0 + 1 + j by omega)]
        exact h2⟩
    cases hpi : ps[i0]? with
    | none => simp only [effectiveArgsAux, hpi, hrec]
    | some p =>
      simp only [effectiveArgsAux, hpi, hhead p hpi, Bool.false_eq_true, if_false, hrec]

theorem effectiveArgsAux_trunc (ps : List Param) :
    ∀ (args : List String) (i0 k : Nat) (hk : k < args.length) (hp : i0 + k < ps.length),
      args.get ⟨k, hk⟩ = "none" →
      (ps.get ⟨i0 + k, hp⟩).hasDefault = true →
      (∀ j (hj : j < k), ¬(args.get ⟨j, by omega⟩ = "none"
        ∧ ∃ hpj : i0 + j < ps.length, (ps.get ⟨i0 + j, hpj⟩).hasDefault = true)) →
      effectiveArgsAux ps i0 args = args.take k := by
  intro args
  induction args with
  | nil => intro i0 k hk; simp at hk
  | cons a rest ih =>
    intro i0 k hk hp hnone hdef hfirst
    cases k with
    | zero =>
      have ha : a = "none" := by simpa using hnone
      have hi0 : i0 < ps.length := by omega
      have hpi0 : ps.get ⟨i0 + 0, hp⟩ = ps.get ⟨i0, hi0⟩ :=
        getParam_congr (by omega) hp
      have hpi : ps[i0]? = some (ps.get ⟨i0, hi0⟩) := by
        simp [List.getElem?_eq_getElem hi0]
      have hdefi : (ps.get ⟨i0, hi0⟩).hasDefault = true := by
        rw [← hpi0]
        exact hdef
      simp only [effectiveArgsAux, hpi, ha, hdefi, List.take_zero]
      simp
    | succ k =>
      have hk2 : k < rest.length := by simpa using hk
      have hp2 : i0 + 1 + k < ps.length := by omega
      have hnone2 : rest.get ⟨k, hk2⟩ = "none" := by simpa using hnone
      have hdef2 : (ps.get ⟨i0 + 1 + k, hp2⟩).hasDefault = true := by
        rw [getParam_congr (show i0 + 1 + k = i0 + (k + 1) by omega) hp2]
        exact hdef
      have hfirst2 : ∀ j (hj : j < k), ¬(rest.get ⟨j, by omega⟩ = "none"
          ∧ ∃ hpj : i0 + 1 + j < ps.length,
            (ps.get ⟨i0 + 1 + j, hpj⟩).hasDefault = true) := by
        intro j hj hcontra
        obtain ⟨h1, hpj, h2⟩ := hcontra
        refine hfirst (j + 1) (by omega) ⟨by simpa using h1, ?_⟩
        exact ⟨by omega, by
          rw [getParam_congr (show i0 + (j + 1) = i0 + 1 + j by omega)]
          exact h2⟩
      have hrec := ih (i0 + 1) k hk2 hp2 hnone2 hdef2 hfirst2
      have hhead : ∀ p, ps[i0]? = some p → (a == "none" && p.hasDefault) = false := by
        intro p hpi
        obtain ⟨hi, hget⟩ := get_of_getElem? hpi
        cases hcond : (a == "none" && p.hasDefault) with
        | false => rfl
        | true =>
          obtain ⟨h1, h2⟩ := Bool.and_eq_true _ _ |>.mp hcond
          exfalso
          refine hfirst 0 (by omega) ⟨by simpa using h1, ?_⟩
          exact ⟨by omega, by
            rw [getParam_congr (show i0 + 0 = i0 by omega), hget]
            exact h2⟩
      cases hpi : ps[i0]? with
      | none =>
        simp only [effectiveArgsAux, hpi, List.take_succ_cons, hrec]
      | some p =>
        simp only [effectiveArgsAux, hpi, hhead p hpi, Bool.false_eq_true, if_false,
          List.take_succ_cons, hrec]

/-- Claim C2 (corrected).  When the next unconsumed token is the literal
`"none"` at a position whose parameter has a default — and no earlier
token already triggered the skip — that token and ALL remaining tokens are
discarded: binding proceeds exactly as if the argument list had been cut
off before the `"none"` (the loop at shell.py:688-695 `break`s, it does
not skip a single slot), so the later parameters all take their defaults
and any tokens after the `"none"` are never bound.  See
`lunar_c2_counterexample` for the behavior the original claim predicted. -/
theorem lunar_c2_amended (c : CommandInfo) (args : List String) (i : Nat)
    (hi : i < args.length) (hp : i < c.params.length)
    (hnone : args.getD i "" = "none")
    (hdef : (c.params.getD i dfltParam).hasDefault = true)
    (hfirst : ∀ j, j < i → ¬(args.getD j "" = "none"
      ∧ j < c.params.length ∧ (c.params.getD j dfltParam).hasDefault = true)) :
    bindArgs c args = bindArgs c (args.take i) := by
  have hnone2 : args.get ⟨i, hi⟩ = "none" := by
    rw [← hnone]
    simp [List.getD_eq_getElem?_getD, List.getElem?_eq_getElem hi]
  have hdef2 : (c.params.get ⟨0 + i, by omega⟩).hasDefault = true := by
    rw [getParam_congr (show 0 + i = i by omega)]
    have hgd : c.params.get ⟨i, hp⟩ = c.params.getD i dfltParam := by
      simp [List.getD_eq_getElem?_getD, List.getElem?_eq_getElem hp]
    rw [hgd]
    exact hdef
  have hfirst2 : ∀ j (hj : j < i), ¬(args.get ⟨j, by omega⟩ = "none"
      ∧ ∃ hpj : 0 + j < c.params.length, (c.params.get ⟨0 + j, hpj⟩).hasDefault = true) := by
    intro j hj hcontra
    obtain ⟨h1, hpj, h2⟩ := hcontra
    have hjp : j < c.params.length := by omega
    refine hfirst j hj ⟨?_, by omega, ?_⟩
    · have hjlen : j < args.length := by omega
      have hgd : args.get ⟨j, hjlen⟩ = args.getD j "" := by
        simp [List.getD_eq_getElem?_getD, List.getElem?_eq_getElem hjlen]
      rw [← hgd]
      exact h1
    · have hgd : c.params.get ⟨j, hjp⟩ = c.params.getD j dfltParam := by
        simp [List.getD_eq_getElem?_getD, List.getElem?_eq_getElem hjp]
      rw [← hgd]
      rw [← getParam_congr (show 0 + j = j by omega) hpj]
      exact h2
  have heff1 : effectiveArgs c.params args = args.take i := by
    apply effectiveArgsAux_trunc c.params args 0 i hi (by omega) hnone2 hdef2 hfirst2
  have heff2 : effectiveArgs c.params (args.take i) = args.take i := by
    apply effectiveArgsAux_no_trigger
    intro j hj hcontra
    obtain ⟨h1, hpj, h2⟩ := hcontra
    have hjlt : j < i := by
      have := hj
      rw [List.length_take] at this
      omega
    have hjlen : j < args.length := by omega
    refine hfirst j hjlt ⟨?_, by omega, ?_⟩
    · have htake : (args.take i).get ⟨j, hj⟩ = args.get ⟨j, hjlen⟩ := by
        simp [List.getElem_take]
      have hgd : args.get ⟨j, hjlen⟩ = args.getD j "" := by
        simp [List.getD_eq_getElem?_getD, List.getElem?_eq_getElem hjlen]
      rw [← hgd, ← htake]
      exact h1
    · have hjp : j < c.params.length := by omega
      have hgd : c.params.get ⟨j, hjp⟩ = c.params.getD j dfltParam := by
        simp [List.getD_eq_getElem?_getD, List.getElem?_eq_getElem hjp]
      rw [← hgd]
      rw [← getParam_congr (show 0 + j = j by omega) hpj]
      exact h2
  simp only [bindArgs, heff1, heff2]

/-- Witness for C2 (amended): for `f(a: int, b: int = 1, c: int = 2)` and
tokens `["5", "none", "7"]`, binding behaves exactly as for the truncated
token list `["5"]`. -/
theorem lunar_c2_witness :
    bindArgs skipCmd ["5", "none", "7"] = bindArgs skipCmd (["5", "none", "7"].take 1) :=
  lunar_c2_amended skipCmd ["5", "none", "7"] 1 (by decide) (by decide) (by decide)
    (by decide) (by decide)

/-- Counterexample to claim C8 as stated.  The declared shape `str` does
not permit absence, so the claim says coercing the token `"none"` must be
a failure; the code instead passes the raw token through the fall-through
branch (shell.py:641-642), successfully producing the string `"none"`. -/
theorem lunar_c8_counterexample :
    transformTypes [TypeShape.str] ["none"] ["p"] = ([], .ok [Value.str "none"]) := rfl

/-- Claim C6 (confirmed).  A command whose parameters are all positional
(no variadic), with a well-formed Python signature, dispatched with fewer
argument tokens than it has required parameters — and whose first argument
token does not name a subcommand, so resolution stops at the command
itself — produces exactly one event: `missing-arguments` naming the
uncovered trailing required parameter names; the handler is not invoked. -/
theorem lunar_c6 (reg : CommandRegistry) (beh : Nat → List Value → FuncResult)
    (tok : String) (args : List String) (id : Nat)
    (hlook : dictGet reg.commands tok = some id)
    (hpar : (arenaGet reg id).parent = Option.none)
    (hchild : ∀ a, args.head? = some a → dictGet (arenaGet reg id).children a = Option.none)
    (hwf : wfParams (arenaGet reg id).params = true)
    (_hkinds : (arenaGet reg id).params.all (fun p => p.kind == PKind.posOrKw) = true)
    (hlen : args.length < (requiredParams (arenaGet reg id).params).length) :
    execute reg beh (tok :: args)
      = ⟨[Event.argumentCountError (arenaGet reg id).name
            (some (((requiredParams (arenaGet reg id).params).map Param.name).drop args.length))
            args.length (requiredParams (arenaGet reg id).params).length
            (arenaGet reg id).params.length],
         Option.none⟩ := by
  have hps : (arenaGet reg id).parent.isSome = false := by rw [hpar]; rfl
  have hwalk : walk reg id args = (id, args) := walk_nonchild reg id args hchild
  have heff : effectiveArgs (arenaGet reg id).params args = args := by
    apply effectiveArgsAux_eq_self
    intro j h hj1 hj2
    cases hdj : ((arenaGet reg id).params.get ⟨j, h⟩).hasDefault with
    | false => rfl
    | true =>
      have := numRequired_le_of_default (arenaGet reg id).params j h hwf hdj
      omega
  have hcond : args.length < (requiredParams (arenaGet reg id).params).length ∨
      (((arenaGet reg id).params.any fun p => p.kind == PKind.varPositional) = false ∧
        (arenaGet reg id).params.length < args.length) := Or.inl hlen
  have hbc : bindCount (arenaGet reg id) args
      = some (.argumentCountError (arenaGet reg id).name
          (some (((requiredParams (arenaGet reg id).params).map Param.name).drop args.length))
          args.length (requiredParams (arenaGet reg id).params).length
          (arenaGet reg id).params.length) := by
    simp only [bindCount, if_pos hcond, if_pos hlen]
  have hb : bindArgs (arenaGet reg id) args
      = BindResult.countError (.argumentCountError (arenaGet reg id).name
          (some (((requiredParams (arenaGet reg id).params).map Param.name).drop args.length))
          args.length (requiredParams (arenaGet reg id).params).length
          (arenaGet reg id).params.length) := by
    simp only [bindArgs, heff, hbc]
  simp [execute, hlook, hps, hwalk, hb]

/-- Witness for C6: `f(a: int, b: int)` dispatched with one token reports
the single missing trailing name `b` and calls nothing. -/
theorem lunar_c6_witness :
    execute twoIntReg behRet ["f", "1"]
      = ⟨[Event.argumentCountError "f" (some ["b"]) 1 2 2], Option.none⟩ :=
  lunar_c6 twoIntReg behRet "f" ["1"] 0 rfl rfl
    (by
      intro a ha
      injection ha with h2
      subst h2
      rfl)
    (by decide) (by decide) (by decide)

/-- Claim C7 (confirmed).  For a command whose trailing parameter is
variadic (well-formed signature), any number of argument tokens at least
the required count binds without any argument-count event — in particular
without extra-arguments (first conjunct); and the spec scenario
`add(*nums: int | float)` dispatched with the line `add 1 2 3.5` invokes
the handler with `[1, 2, 3.5]`, each surplus token coerced against the
variadic element annotation (second conjunct). -/
theorem lunar_c7 :
    (∀ (c : CommandInfo) (args : List String),
      wfParams c.params = true →
      c.params ≠ [] →
      (∀ h : c.params ≠ [], (c.params.getLast h).kind = PKind.varPositional) →
      (requiredParams c.params).length ≤ args.length →
      ∀ ev, bindArgs c args ≠ BindResult.countError ev)
    ∧ execute addReg behRet (pySplit "add 1 2 3.5")
      = ⟨[], some (0, [Value.int 1, Value.int 2, Value.float (mkRat 7 2)])⟩ := by
  constructor
  · intro c args hwf hne hlast hlen ev
    have hvar : c.params.any (fun p => p.kind == PKind.varPositional) = true := by
      apply List.any_eq_true.mpr
      exact ⟨c.params.getLast hne, List.getLast_mem hne, by simp [hlast hne]⟩
    have heff : (requiredParams c.params).length ≤ (effectiveArgs c.params args).length := by
      rcases effectiveArgsAux_cases c.params args 0 with heq | ⟨k, hk, hkp, heq, hd⟩
      · rw [effectiveArgs, heq]
        exact hlen
      · rw [effectiveArgs, heq, List.length_take]
        have := numRequired_le_of_default c.params (0 + k) hkp hwf hd
        omega
    have hbc : bindCount c (effectiveArgs c.params args) = Option.none := by
      have hcond : ¬((effectiveArgs c.params args).length < (requiredParams c.params).length
          ∨ ((c.params.any fun p => p.kind == PKind.varPositional) = false ∧
            c.params.length < (effectiveArgs c.params args).length)) := by
        intro h
        rcases h with h | ⟨h1, h2⟩
        · omega
        · rw [hvar] at h1
          cases h1
      simp only [bindCount, if_neg hcond]
    intro hb
    simp only [bindArgs, hbc] at hb
    exact absurd hb (bindTransform_ne_countError _ _ _)
  · rfl

/-- Witness for C7: the `add` command's single parameter is variadic, its
required count is 0 ≤ 3, so no argument-count event is possible for
`["1", "2", "3.5"]`. -/
theorem lunar_c7_witness :
    ∀ ev, bindArgs (arenaGet addReg 0) ["1", "2", "3.5"] ≠ BindResult.countError ev :=
  lunar_c7.1 (arenaGet addReg 0) ["1", "2", "3.5"] (by decide)
    (fun h => by cases h) (fun h => rfl) (by decide)

theorem execute_call_events (reg : CommandRegistry) (beh : Nat → List Value → FuncResult)
    (parts : List String) (id : Nat) (vs : List Value)
    (hcall : (execute reg beh parts).call = some (id, vs)) :
    ∃ evs, (execute reg beh parts).events
      = evs ++ (match beh id vs with
                | FuncResult.ret => ([] : List Event)
                | FuncResult.kbInterrupt => [Event.commandInterrupt]
                | FuncResult.interruptExc => [Event.commandException]
                | FuncResult.exc => [Event.commandException]) := by
  match parts with
  | [] => simp [execute] at hcall
  | tok :: rest =>
    cases hlook : dictGet reg.commands tok with
    | none => simp [execute, hlook] at hcall
    | some rootId =>
      cases hpar : (arenaGet reg rootId).parent.isSome with
      | true => simp [execute, hlook, hpar] at hcall
      | false =>
        rcases hb : bindArgs (arenaGet reg (walk reg rootId rest).1) (walk reg rootId rest).2
          with ev | evs | evs | ⟨evs, vals⟩
        · have hx : execute reg beh (tok :: rest) = ⟨[ev], Option.none⟩ := by
            simp [execute, hlook, hpar, hb]
          rw [hx] at hcall
          cases hcall
        · have hx : execute reg beh (tok :: rest) = ⟨evs, Option.none⟩ := by
            simp [execute, hlook, hpar, hb]
          rw [hx] at hcall
          cases hcall
        · have hx : execute reg beh (tok :: rest)
              = ⟨evs ++ [Event.unexpectedException], Option.none⟩ := by
            simp [execute, hlook, hpar, hb]
          rw [hx] at hcall
          cases hcall
        · cases hbeh : beh (walk reg rootId rest).1 vals
          case ret =>
            have hx : execute reg beh (tok :: rest)
                = ⟨evs, some ((walk reg rootId rest).1, vals)⟩ := by
              simp [execute, hlook, hpar, hb, hbeh]
            rw [hx] at hcall
            injection hcall with h2
            obtain ⟨h3, h4⟩ := Prod.mk.injEq _ _ _ _ ▸ h2
            refine ⟨evs, ?_⟩
            rw [hx, ← h3, ← h4, hbeh]
            simp
          case kbInterrupt =>
            have hx : execute reg beh (tok :: rest)
                = ⟨evs ++ [Event.commandInterrupt], some ((walk reg rootId rest).1, vals)⟩ := by
              simp [execute, hlook, hpar, hb, hbeh]
            rw [hx] at hcall
            injection hcall with h2
            obtain ⟨h3, h4⟩ := Prod.mk.injEq _ _ _ _ ▸ h2
            refine ⟨evs, ?_⟩
            rw [hx, ← h3, ← h4, hbeh]
          case interruptExc =>
            have hx : execute reg beh (tok :: rest)
                = ⟨evs ++ [Event.commandException], some ((walk reg rootId rest).1, vals)⟩ := by
              simp [execute, hlook, hpar, hb, hbeh]
            rw [hx] at hcall
            injection hcall with h2
            obtain ⟨h3, h4⟩ := Prod.mk.injEq _ _ _ _ ▸ h2
            refine ⟨evs, ?_⟩
            rw [hx, ← h3, ← h4, hbeh]
          case exc =>
            have hx : execute reg beh (tok :: rest)
                = ⟨evs ++ [Event.commandException], some ((walk reg rootId rest).1, vals)⟩ := by
              simp [execute, hlook, hpar, hb, hbeh]
            rw [hx] at hcall
            injection hcall with h2
            obtain ⟨h3, h4⟩ := Prod.mk.injEq _ _ _ _ ▸ h2
            refine ⟨evs, ?_⟩
            rw [hx, ← h3, ← h4, hbeh]

/-- Claim C9 (confirmed).  A `KeyboardInterrupt` raised inside an
executing handler ends the line's events with `command-interrupted` and
the loop keeps reading (first and fourth conjuncts); any other exception
the handler raises — including the library's own `InterruptException`,
which subclasses `Exception` — ends them with `command-exception` and the
loop keeps reading (second and fourth conjuncts); the loop-level
`interrupt` event is never fired by command execution (third conjunct)
and only the input source's interruption fires it, terminating the loop
immediately after (fifth conjunct).  The two interrupt kinds are thus
never conflated. -/
theorem lunar_c9 :
    (∀ (reg : CommandRegistry) (beh : Nat → List Value → FuncResult) (parts : List String)
      (id : Nat) (vs : List Value),
      (execute reg beh parts).call = some (id, vs) →
      beh id vs = FuncResult.kbInterrupt →
      ∃ evs, (execute reg beh parts).events = evs ++ [Event.commandInterrupt])
    ∧ (∀ (reg : CommandRegistry) (beh : Nat → List Value → FuncResult) (parts : List String)
      (id : Nat) (vs : List Value),
      (execute reg beh parts).call = some (id, vs) →
      (beh id vs = FuncResult.exc ∨ beh id vs = FuncResult.interruptExc) →
      ∃ evs, (execute reg beh parts).events = evs ++ [Event.commandException])
    ∧ (∀ (reg : CommandRegistry) (beh : Nat → List Value → FuncResult) (parts : List String),
      Event.interrupt ∉ (execute reg beh parts).events)
    ∧ (∀ (reg : CommandRegistry) (beh : Nat → List Value → FuncResult) (lines : List String),
      run reg beh (lines.map InputItem.line)
        = lines.flatMap (fun l => (execute reg beh (pySplit l)).events))
    ∧ (∀ (reg : CommandRegistry) (beh : Nat → List Value → FuncResult)
      (items1 items2 : List InputItem), InputItem.interrupted ∉ items1 →
      run reg beh (items1 ++ InputItem.interrupted :: items2)
        = run reg beh items1 ++ [Event.interrupt]) := by
  refine ⟨?_, ?_, ?_, ?_, ?_⟩
  · intro reg beh parts id vs hcall hbeh
    obtain ⟨evs, he⟩ := execute_call_events reg beh parts id vs hcall
    rw [hbeh] at he
    exact ⟨evs, he⟩
  · intro reg beh parts id vs hcall hbeh
    obtain ⟨evs, he⟩ := execute_call_events reg beh parts id vs hcall
    rcases hbeh with hbeh | hbeh <;> rw [hbeh] at he <;> exact ⟨evs, he⟩
  · intro reg beh parts
    exact execute_no_loop_interrupt reg beh parts
  · intro reg beh lines
    induction lines with
    | nil => rfl
    | cons l rest ih =>
      simp only [List.map_cons, run, List.flatMap_cons, ih]
  · intro reg beh items1 items2 hnot
    induction items1 with
    | nil => rfl
    | cons item rest ih =>
      cases item with
      | line s =>
        have hnot2 : InputItem.interrupted ∉ rest := by
          intro hmem
          exact hnot (by simp [hmem])
        simp only [List.cons_append, run]
        rw [show rest.append (InputItem.interrupted :: items2)
            = rest ++ InputItem.interrupted :: items2 from rfl, ih hnot2]
        simp
      | interrupted =>
        exact absurd (by simp) hnot

/-- Witness for C9: a parameterless command `f` whose handler raises
`KeyboardInterrupt`, dispatched once then followed by the input source's
interruption: the line's events end with `command-interrupted`, and the
run terminates with the loop-level `interrupt` event after it. -/
theorem lunar_c9_witness :
    (∃ evs, (execute simpleReg behKb ["f"]).events = evs ++ [Event.commandInterrupt])
    ∧ run simpleReg behKb [InputItem.line "f", InputItem.interrupted]
        = run simpleReg behKb [InputItem.line "f"] ++ [Event.interrupt] :=
  ⟨lunar_c9.1 simpleReg behKb ["f"] 0 [] rfl rfl,
   lunar_c9.2.2.2.2 simpleReg behKb [InputItem.line "f"] [] (by decide)⟩

end LunarEngine

